import Mathlib

/-!
LuaMachine: the blueprint function library, embedded

A shallow embedding of `ULuaBlueprintFunctionLibrary`
(`Source/LuaMachine/Private/LuaBlueprintFunctionLibrary.cpp`).

* The native stack of a `ULuaState` is a list whose head is the top of the
  stack, so that the Lua index `-1` is position `0` of the list.
* `FLuaValue`, `ULuaState` and the stack primitives live in `LuaValue.h` and
  `LuaState.cpp`, which are not part of the sources at hand; they are modelled
  from the specification and marked as such.
* Everything the embedded interpreter decides (what a protected call returns,
  what a table holds at an index) is a parameter of the definitions.
-/

namespace LuaMachine

/-! ## Data model -/

/-- Modelled from the spec: the variant tag of a dynamic value (`ELuaValueType`,
declared in the missing `LuaValue.h`); the names are the ones the library uses. -/
inductive ELuaValueType where
  | Nil
  | Bool
  | Integer
  | Number
  | String
  | Function
  | Table
  | UserData
  | UObject
  | Thread
  deriving DecidableEq, Repr

/-- Modelled from the spec: the dynamic value (`FLuaValue`, declared in the missing
`LuaValue.h`): a variant tag, a scalar payload or registry key, a byte payload
for strings, and the weak reference to the producing instance (`none` when it was
never set). -/
structure FLuaValue where
  Type_ : ELuaValueType
  Integer : Int
  String : List Nat
  LuaState : Option Nat
  deriving DecidableEq, Repr

/-- Modelled from the spec: the default-constructed value `FLuaValue()` (constructor in
the missing `LuaValue.h`): Nil, no payload, no instance. -/
def FLuaValue.Nil : FLuaValue :=
  { Type_ := ELuaValueType.Nil, Integer := 0, String := [], LuaState := none }

/-- The stack and native operations an instance performs, in the order performed. -/
inductive LuaOp where
  | FromLuaValue (LuaValue : FLuaValue)
  | Pop (Amount : Int)
  | PCall (NArgs : Nat) (NRet : Int)
  | PushNil
  | Next (Index : Int)
  | Resume (Index : Int) (NArgs : Nat)
  | Yield (Index : Int) (NArgs : Nat)
  | Len (Index : Int)
  deriving DecidableEq, Repr

/-- Modelled from the spec: one runtime instance (`ULuaState`, from the missing
`LuaState.cpp`), reduced to its native stack (top first) and the log of
the stack and native operations performed on it. -/
structure ULuaState where
  Stack : List FLuaValue
  Trace : List LuaOp
  deriving DecidableEq, Repr

/-- The live instances, by identifier; `none` is a destroyed or unknown instance. The
weak pointer dereference `Value.LuaState.Get()` of a value whose reference is
`some This` is `W This`, and the null pointer when the reference is `none`. -/
abbrev World := Nat → Option ULuaState

/-- What the embedded interpreter does with a protected call: it raises an error
value, or it returns the callee's results in left-to-right order. -/
inductive PCallOutcome where
  | Error (Message : FLuaValue)
  | Success (Results : List FLuaValue)
  deriving DecidableEq, Repr

/-- The interpreter, as far as calls go: callee and arguments to outcome. -/
abbrev Interpreter := FLuaValue → List FLuaValue → PCallOutcome

/-- The constant `LUA_MULTRET` of the Lua C API. -/
def LUA_MULTRET : Int := -1

/-! ## Marshalling primitives of `ULuaState` -/

/-- Modelled from the spec: whether a value is self-contained (scalar, string,
host object or untracked user data), so that pushing it needs no registry. -/
def FLuaValue.IsSelfContained (V : FLuaValue) : Bool :=
  match V.Type_ with
  | ELuaValueType.Nil => true
  | ELuaValueType.Bool => true
  | ELuaValueType.Integer => true
  | ELuaValueType.Number => true
  | ELuaValueType.String => true
  | ELuaValueType.UObject => true
  | ELuaValueType.UserData => V.LuaState.isNone
  | _ => false

/-- Modelled from the spec: the slot `Push(value)` writes on instance `This`: the
value itself when it is self-contained or belongs to this instance, Nil for
a value of another instance. -/
def PushedValue (This : Nat) (V : FLuaValue) : FLuaValue :=
  if V.IsSelfContained then V
  else if V.LuaState = some This then V
  else FLuaValue.Nil

/-- Modelled from the spec: `ULuaState::FromLuaValue`, the `Push(value)` of the
marshalling protocol: exactly one new slot on top of the stack. -/
def ULuaState.FromLuaValue (L : ULuaState) (This : Nat) (LuaValue : FLuaValue) : ULuaState :=
  { Stack := PushedValue This LuaValue :: L.Stack,
    Trace := L.Trace ++ [LuaOp.FromLuaValue LuaValue] }

/-- Modelled from the spec: `ULuaState::GetTop`, the depth of the native stack. -/
def ULuaState.GetTop (L : ULuaState) : Int :=
  (L.Stack.length : Int)

/-- Modelled from the spec: `ULuaState::ToLuaValue(Index)`: reads the slot at `Index`
(negative indices count from the top, positive ones from the bottom) without
changing the stack; a position outside the stack reads as Nil. -/
def ULuaState.ToLuaValue (L : ULuaState) (Index : Int) : FLuaValue :=
  if Index < 0 then L.Stack.getD (-Index - 1).toNat FLuaValue.Nil
  else if Index = 0 then FLuaValue.Nil
  else L.Stack.reverse.getD (Index - 1).toNat FLuaValue.Nil

/-- Modelled from the spec: `ULuaState::Pop(Amount)` (`Amount` defaults to 1 in the
callers): removes the `Amount` topmost slots. -/
def ULuaState.Pop (L : ULuaState) (Amount : Int) : ULuaState :=
  { Stack := L.Stack.drop Amount.toNat,
    Trace := L.Trace ++ [LuaOp.Pop Amount] }

/-- Modelled from the spec: the results of a call adjusted to `NRet` values, as the
native call leaves them: all of them for `LUA_MULTRET`, otherwise exactly `NRet`,
truncated or padded with Nil. -/
def AdjustResults (NRet : Int) (Results : List FLuaValue) : List FLuaValue :=
  if NRet < 0 then Results
  else (Results ++ List.replicate NRet.toNat FLuaValue.Nil).take NRet.toNat

/-- Modelled from the spec: `ULuaState::PCall(NArgs, Value, NRet)`, the native
protected call. The callee and its `NArgs` arguments are replaced by the results
(or by the one error value). It returns the success flag and the out-parameter
`Value`, which receives the top result on success when `NRet > 0`. -/
def ULuaState.PCall (Interp : Interpreter) (L : ULuaState) (NArgs : Nat)
    (Value : FLuaValue) (NRet : Int) : Bool × FLuaValue × ULuaState :=
  let Callee := L.Stack.getD NArgs FLuaValue.Nil
  let CallArgs := (L.Stack.take NArgs).reverse
  let Base := L.Stack.drop (NArgs + 1)
  let Trace := L.Trace ++ [LuaOp.PCall NArgs NRet]
  match Interp Callee CallArgs with
  | PCallOutcome.Error Message =>
      (false, Value, { Stack := Message :: Base, Trace := Trace })
  | PCallOutcome.Success Results =>
      let L1 : ULuaState := { Stack := (AdjustResults NRet Results).reverse ++ Base, Trace := Trace }
      (true, if NRet > 0 then L1.ToLuaValue (-1) else Value, L1)

/-! ## Call protocol -/

/-- The argument loop `for (FLuaValue& Arg : Args) { L->FromLuaValue(Arg); NArgs++; }`. -/
def PushArgs (This : Nat) (L : ULuaState) (Args : List FLuaValue) : ULuaState × Nat :=
  Args.foldl (fun S Arg => (S.1.FromLuaValue This Arg, S.2 + 1)) (L, 0)

/-- The result loop
`for (int32 i = -1; i >= -(NumOfReturnValues); i--) ReturnValue.Insert(L->ToLuaValue(i), 0);`
with `Fuel` bounding the number of iterations. -/
def CollectResults (L : ULuaState) (NumOfReturnValues : Int) :
    Nat → Int → List FLuaValue → List FLuaValue
  | 0, _, ReturnValue => ReturnValue
  | Fuel + 1, i, ReturnValue =>
      if i ≥ -NumOfReturnValues then
        CollectResults L NumOfReturnValues Fuel (i - 1) (L.ToLuaValue i :: ReturnValue)
      else ReturnValue

/-- What one run of `LuaValueCallMulti` on a live instance leaves behind: the returned
array, the count it computed on the success path, and the instance. -/
structure CallMultiRun where
  ReturnValue : List FLuaValue
  NumOfReturnValues : Option Int
  L : ULuaState
  deriving DecidableEq, Repr

/-- The body of `ULuaBlueprintFunctionLibrary::LuaValueCallMulti` once `L` is known to
be non-null. -/
def LuaValueCallMultiBody (Interp : Interpreter) (This : Nat) (L : ULuaState)
    (Value : FLuaValue) (Args : List FLuaValue) : CallMultiRun :=
  let L1 := L.FromLuaValue This Value
  let StackTop := L1.GetTop
  let Pushed := PushArgs This L1 Args
  let NArgs := Pushed.2
  let LastReturnValue := FLuaValue.Nil
  let Called := ULuaState.PCall Interp Pushed.1 NArgs LastReturnValue LUA_MULTRET
  let L2 := Called.2.2
  if Called.1 then
    let NumOfReturnValues := (L2.GetTop - StackTop) + 1
    if NumOfReturnValues > 0 then
      let ReturnValue := CollectResults L2 NumOfReturnValues NumOfReturnValues.toNat (-1) []
      let L3 := L2.Pop (NumOfReturnValues - 1)
      { ReturnValue := ReturnValue, NumOfReturnValues := some NumOfReturnValues, L := L3.Pop 1 }
    else
      { ReturnValue := [], NumOfReturnValues := some NumOfReturnValues, L := L2.Pop 1 }
  else
    { ReturnValue := [], NumOfReturnValues := none, L := L2.Pop 1 }

/-- `ULuaBlueprintFunctionLibrary::LuaValueCallMulti`: the returned array and the world
after the call. `L` is null when the value has no instance reference or the instance
is gone. -/
def LuaValueCallMulti (Interp : Interpreter) (W : World) (Value : FLuaValue)
    (Args : List FLuaValue) : List FLuaValue × World :=
  match Value.LuaState with
  | none => ([], W)
  | some This =>
    match W This with
    | none => ([], W)
    | some L =>
      let Run := LuaValueCallMultiBody Interp This L Value Args
      (Run.ReturnValue, Function.update W This (some Run.L))

/-- `ULuaBlueprintFunctionLibrary::LuaValueCall`: the returned value and the world after
the call. -/
def LuaValueCall (Interp : Interpreter) (W : World) (Value : FLuaValue)
    (Args : List FLuaValue) : FLuaValue × World :=
  let ReturnValue := FLuaValue.Nil
  match Value.LuaState with
  | none => (ReturnValue, W)
  | some This =>
    match W This with
    | none => (ReturnValue, W)
    | some L =>
      let L1 := L.FromLuaValue This Value
      let Pushed := PushArgs This L1 Args
      let NArgs := Pushed.2
      let Called := ULuaState.PCall Interp Pushed.1 NArgs ReturnValue 1
      let L2 := Called.2.2.Pop 1
      (Called.2.1, Function.update W This (some L2))

/-- The stack depth of instance `This` in world `W` (0 when the instance is gone). -/
def World.Depth (W : World) (This : Nat) : Nat :=
  match W This with
  | none => 0
  | some L => L.Stack.length

/-- The operation log of instance `This` in world `W`. -/
def World.TraceOf (W : World) (This : Nat) : List LuaOp :=
  match W This with
  | none => []
  | some L => L.Trace

/-! ## Table protocol: unpacking -/

/-- The method `FLuaValue::GetFieldByIndex` (in the missing `LuaValue.cpp`), taken as
a parameter: the value a table holds at an integer index, Nil when there is none.
It restores the stack itself, so the callers below see it as a lookup. -/
abbrev FieldByIndex := FLuaValue → Int → FLuaValue

/-- The value of a 32-bit signed integer after an arithmetic step (two's complement). -/
def WrapInt32 (x : Int) : Int :=
  (x + 2147483648) % 4294967296 - 2147483648

/-- The largest `int32`. -/
def MAX_int32 : Int := 2147483647

/-- The loop
`for (;;) { Item = InTable.GetFieldByIndex(Index++); if (Item.Type == Nil) break; ReturnValue.Add(Item); }`
It returns the index variable and the array when the loop breaks, `none` when the
`Fuel` iterations did not reach a Nil field. -/
def UnpackLoop (GetFieldByIndex : FieldByIndex) (InTable : FLuaValue) :
    Nat → Int → List FLuaValue → Option (Int × List FLuaValue)
  | 0, _, _ => none
  | Fuel + 1, Index, ReturnValue =>
      let Item := GetFieldByIndex InTable Index
      let Index1 := WrapInt32 (Index + 1)
      if Item.Type_ = ELuaValueType.Nil then some (Index1, ReturnValue)
      else UnpackLoop GetFieldByIndex InTable Fuel Index1 (ReturnValue ++ [Item])

/-- `ULuaBlueprintFunctionLibrary::LuaTableUnpack`. -/
def LuaTableUnpack (GetFieldByIndex : FieldByIndex) (Fuel : Nat) (InTable : FLuaValue) :
    Option (List FLuaValue) :=
  if InTable.Type_ ≠ ELuaValueType.Table then some []
  else
    match UnpackLoop GetFieldByIndex InTable Fuel 1 [] with
    | none => none
    | some Done => some Done.2

/-- `ULuaBlueprintFunctionLibrary::LuaTableMergeUnpack`: one index variable, declared
before the first loop, serves both loops. -/
def LuaTableMergeUnpack (GetFieldByIndex : FieldByIndex) (Fuel : Nat)
    (InTable1 InTable2 : FLuaValue) : Option (List FLuaValue) :=
  if InTable1.Type_ ≠ ELuaValueType.Table then some []
  else if InTable2.Type_ ≠ ELuaValueType.Table then some []
  else
    match UnpackLoop GetFieldByIndex InTable1 Fuel 1 [] with
    | none => none
    | some First =>
      match UnpackLoop GetFieldByIndex InTable2 Fuel First.1 First.2 with
      | none => none
      | some Second => some Second.2

/-- The specification of unpacking, in its own words: `GetFieldByIndex(1), (2), ...`
up to the first Nil, as the list of the fields below the first hole `k`. -/
def FieldsBelow (GetFieldByIndex : FieldByIndex) (InTable : FLuaValue) (k : Nat) :
    List FLuaValue :=
  (List.range (k - 1)).map (fun (j : Nat) => GetFieldByIndex InTable ((j : Int) + 1))

/-- Modelled from the spec: an Integer value, `FLuaValue(int32)` (constructor in the
missing `LuaValue.h`). -/
def FLuaValue.OfInteger (Value : Int) : FLuaValue :=
  { Type_ := ELuaValueType.Integer, Integer := Value, String := [], LuaState := none }

/-- A table value of instance `This` with registry key `LuaRef`. -/
def FLuaValue.TableRef (This : Nat) (LuaRef : Int) : FLuaValue :=
  { Type_ := ELuaValueType.Table, Integer := LuaRef, String := [], LuaState := some This }

/-- A function value of instance `This` with registry key `LuaRef`. -/
def FLuaValue.FunctionRef (This : Nat) (LuaRef : Int) : FLuaValue :=
  { Type_ := ELuaValueType.Function, Integer := LuaRef, String := [], LuaState := some This }

/-- A field lookup for array-style tables given by their registry key: the table with key
`r` holds the `i`-th item of the list stored under `r` at index `i` (1-based). -/
def ArrayFields (Tables : List (Int × List FLuaValue)) : FieldByIndex :=
  fun InTable Index =>
    if InTable.Type_ ≠ ELuaValueType.Table then FLuaValue.Nil
    else if Index < 1 then FLuaValue.Nil
    else
      match Tables.lookup InTable.Integer with
      | none => FLuaValue.Nil
      | some Items => Items.getD (Index - 1).toNat FLuaValue.Nil

/-! ## Byte and text codecs -/

/-- Modelled from the spec: the constructor `FLuaValue(TArray<uint8>)` (in the missing
`LuaValue.h`): a String value holding the bytes. -/
def FLuaValue.OfBytes (Bytes : List Nat) : FLuaValue :=
  { Type_ := ELuaValueType.String, Integer := 0, String := Bytes, LuaState := none }

/-- Modelled from the spec: the constructor `FLuaValue(const char*, size_t Length)` (in
the missing `LuaValue.h`): a String value holding the first `Length` bytes at the
pointer. -/
def FLuaValue.OfChars (Memory : List Nat) (Length : Nat) : FLuaValue :=
  FLuaValue.OfBytes (Memory.take Length)

/-- Modelled from the spec: `FLuaValue::ToBytes` (in the missing `LuaValue.cpp`): the
byte payload of a String value, no bytes for any other variant. -/
def FLuaValue.ToBytes (V : FLuaValue) : List Nat :=
  if V.Type_ = ELuaValueType.String then V.String else []

/-- The engine's `FString::AppendChar`: appends the character unless it is the null
character. A text is the list of its `TCHAR` code units. -/
def AppendChar (S : List Nat) (InChar : Nat) : List Nat :=
  if InChar ≠ 0 then S ++ [InChar] else S

/-- The loop of `LuaValueFromUTF16`, for either byte order: the little-endian branch
adds the low byte first, the big-endian branch the high byte first. -/
def FromUTF16Loop (IsLittleEndian : Bool) (String : List Nat) :
    Nat → Nat → List Nat → List Nat
  | 0, _, Bytes => Bytes
  | Fuel + 1, Index, Bytes =>
      if Index < String.length then
        let UTF16Char := String.getD Index 0 % 65536
        let Low := (UTF16Char &&& 0xFF) % 256
        let High := ((UTF16Char >>> 8) &&& 0xFF) % 256
        let Bytes1 := if IsLittleEndian then Bytes ++ [Low, High] else Bytes ++ [High, Low]
        FromUTF16Loop IsLittleEndian String Fuel (Index + 1) Bytes1
      else Bytes

/-- `ULuaBlueprintFunctionLibrary::LuaValueFromUTF16`, with the platform's byte order as
a parameter. -/
def LuaValueFromUTF16 (IsLittleEndian : Bool) (String : List Nat) : FLuaValue :=
  FLuaValue.OfBytes (FromUTF16Loop IsLittleEndian String String.length 0 [])

/-- The loop of `LuaValueToUTF16`, for either byte order, carrying the text built so far
and the byte indices read so far. In the little-endian branch `Bytes[Index]` is the
low byte, in the big-endian branch the high byte. -/
def ToUTF16Loop (IsLittleEndian : Bool) (Bytes : List Nat) :
    Nat → Nat → List Nat × List Nat → List Nat × List Nat
  | 0, _, S => S
  | Fuel + 1, Index, S =>
      if Index < Bytes.length then
        let First := Bytes.getD Index 0
        let Second := Bytes.getD (Index + 1) 0
        let UTF16Low := if IsLittleEndian then First else Second
        let UTF16High := if IsLittleEndian then Second else First
        let Char := ((UTF16High <<< 8) ||| UTF16Low) % 65536
        ToUTF16Loop IsLittleEndian Bytes Fuel (Index + 2)
          (AppendChar S.1 Char, S.2 ++ [Index, Index + 1])
      else S

/-- `ULuaBlueprintFunctionLibrary::LuaValueToUTF16` together with the list of byte
indices it reads, in the order read. -/
def LuaValueToUTF16Run (IsLittleEndian : Bool) (Value : FLuaValue) : List Nat × List Nat :=
  let Bytes := Value.ToBytes
  if Bytes.length % 2 ≠ 0 then ([], [])
  else ToUTF16Loop IsLittleEndian Bytes Bytes.length 0 ([], [])

/-- `ULuaBlueprintFunctionLibrary::LuaValueToUTF16`: the decoded text. -/
def LuaValueToUTF16 (IsLittleEndian : Bool) (Value : FLuaValue) : List Nat :=
  (LuaValueToUTF16Run IsLittleEndian Value).1

/-- The engine's conversion `FTCHARToUTF32`: UTF-16 code units to code points, a
surrogate pair giving one code point and a lone surrogate the replacement `?`. -/
def FTCHARToUTF32 : List Nat → List Nat
  | [] => []
  | [c] => if 0xD800 ≤ c ∧ c ≤ 0xDFFF then [0x3F] else [c]
  | c :: d :: Rest =>
      if 0xD800 ≤ c ∧ c ≤ 0xDBFF ∧ 0xDC00 ≤ d ∧ d ≤ 0xDFFF then
        (0x10000 + (c - 0xD800) * 0x400 + (d - 0xDC00)) :: FTCHARToUTF32 Rest
      else if 0xD800 ≤ c ∧ c ≤ 0xDFFF then 0x3F :: FTCHARToUTF32 (d :: Rest)
      else c :: FTCHARToUTF32 (d :: Rest)

/-- The four bytes of one `UTF32CHAR` in memory, in the platform's byte order. -/
def UTF32CharBytes (IsLittleEndian : Bool) (CodePoint : Nat) : List Nat :=
  let B0 := CodePoint % 256
  let B1 := (CodePoint / 256) % 256
  let B2 := (CodePoint / 65536) % 256
  let B3 := (CodePoint / 16777216) % 256
  if IsLittleEndian then [B0, B1, B2, B3] else [B3, B2, B1, B0]

/-- The memory behind `UTF32String.Get()`: the code points, four bytes each, and the
null terminator. -/
def UTF32Memory (IsLittleEndian : Bool) (CodePoints : List Nat) : List Nat :=
  (CodePoints.map (UTF32CharBytes IsLittleEndian)).flatten ++ [0, 0, 0, 0]

/-- `ULuaBlueprintFunctionLibrary::LuaValueFromUTF32`; `UTF32String.Length()` is the
number of code points of the converted text. -/
def LuaValueFromUTF32 (EngineMinorVersion : Nat) (IsLittleEndian : Bool)
    (String : List Nat) : FLuaValue :=
  if EngineMinorVersion ≥ 25 then
    let UTF32String := FTCHARToUTF32 String
    FLuaValue.OfChars (UTF32Memory IsLittleEndian UTF32String) UTF32String.length
  else FLuaValue.Nil

/-- One `UTF32CHAR` read from four bytes of memory, in the platform's byte order. -/
def ReadUTF32Char (IsLittleEndian : Bool) (B0 B1 B2 B3 : Nat) : Nat :=
  if IsLittleEndian then B0 + 256 * B1 + 65536 * B2 + 16777216 * B3
  else B3 + 256 * B2 + 65536 * B1 + 16777216 * B0

/-- The first `Count` code points stored at the start of `Bytes`. -/
def ReadUTF32Chars (IsLittleEndian : Bool) : Nat → List Nat → List Nat
  | 0, _ => []
  | Count + 1, Bytes =>
      ReadUTF32Char IsLittleEndian (Bytes.getD 0 0) (Bytes.getD 1 0) (Bytes.getD 2 0)
          (Bytes.getD 3 0)
        :: ReadUTF32Chars IsLittleEndian Count (Bytes.drop 4)

/-- The engine's conversion `FUTF32ToTCHAR` of one code point: itself in the basic
plane, a surrogate pair above it, the replacement `?` when it is no code point. -/
def UTF32CharToTCHAR (CodePoint : Nat) : List Nat :=
  if CodePoint > 0x10FFFF ∨ (0xD800 ≤ CodePoint ∧ CodePoint ≤ 0xDFFF) then [0x3F]
  else if CodePoint ≥ 0x10000 then
    [0xD800 + (CodePoint - 0x10000) / 0x400, 0xDC00 + (CodePoint - 0x10000) % 0x400]
  else [CodePoint]

/-- The engine's constructor `FString(const TCHAR*)`: the text up to the first null. -/
def FStringOfCString (Chars : List Nat) : List Nat :=
  Chars.takeWhile (fun c => c ≠ 0)

/-- `ULuaBlueprintFunctionLibrary::LuaValueToUTF32`. -/
def LuaValueToUTF32 (EngineMinorVersion : Nat) (IsLittleEndian : Bool)
    (Value : FLuaValue) : List Nat :=
  if EngineMinorVersion ≥ 25 then
    let Bytes := Value.ToBytes ++ [0] ++ [0] ++ [0] ++ [0]
    let CodePoints := ReadUTF32Chars IsLittleEndian (Bytes.length / 4) Bytes
    FStringOfCString ((CodePoints.map UTF32CharToTCHAR).flatten)
  else []

/-! ## Definitions used by the statements and the examples -/

/-- The operations `LuaValueCallMulti` and `LuaValueCall` log up to and including the
protected call: the value pushed, each argument pushed, the call with the argument
count. -/
def CallOps (L : ULuaState) (Value : FLuaValue) (Args : List FLuaValue) (NRet : Int) :
    List LuaOp :=
  L.Trace ++ [LuaOp.FromLuaValue Value] ++ Args.map LuaOp.FromLuaValue
    ++ [LuaOp.PCall Args.length NRet]

/-- An interpreter for the examples: calling a value that is not a function raises an
error; the function with registry key 0 returns nothing, any other function returns
its arguments followed by the integer 7. -/
def ExampleInterpreter : Interpreter :=
  fun Callee CallArgs =>
    if Callee.Type_ = ELuaValueType.Function then
      if Callee.Integer = 0 then PCallOutcome.Success []
      else PCallOutcome.Success (CallArgs ++ [FLuaValue.OfInteger 7])
    else PCallOutcome.Error (FLuaValue.OfBytes [101, 114, 114])

/-- The instance of the examples: one slot on its stack, nothing logged yet. -/
def ExampleState : ULuaState :=
  { Stack := [FLuaValue.OfInteger 99], Trace := [] }

/-- The world of the examples: instance 0 is alive, every other one is gone. -/
def ExampleWorld : World :=
  fun This => if This = 0 then some ExampleState else none

/-- The tables of the examples: table 1 is `{10, 20, nil, 40}`, table 2 is `{2, 3, 4}`,
table 3 is `{1}`. -/
def ExampleFields : FieldByIndex :=
  ArrayFields
    [(1, [FLuaValue.OfInteger 10, FLuaValue.OfInteger 20, FLuaValue.Nil, FLuaValue.OfInteger 40]),
     (2, [FLuaValue.OfInteger 2, FLuaValue.OfInteger 3, FLuaValue.OfInteger 4]),
     (3, [FLuaValue.OfInteger 1])]

/-- The two bytes `LuaValueFromUTF16` adds for one code unit, in the order it adds them. -/
def UTF16UnitBytes (IsLittleEndian : Bool) (Char : Nat) : List Nat :=
  if IsLittleEndian then [Char % 256, Char % 65536 / 256]
  else [Char % 65536 / 256, Char % 256]

/-! ## Call protocol: the other entry points -/

/-- The weak pointer dereference `Value.LuaState.Get()` (and the test
`Value.LuaState.IsValid()`): the instance when the reference is set and the instance
is alive, the null pointer otherwise. -/
def World.Get (W : World) (LuaState : Option Nat) : Option ULuaState :=
  match LuaState with
  | none => none
  | some This => W This

/-- `ULuaBlueprintFunctionLibrary::LuaValueCallIfNotNil`. -/
def LuaValueCallIfNotNil (Interp : Interpreter) (W : World) (Value : FLuaValue)
    (Args : List FLuaValue) : FLuaValue × World :=
  let ReturnValue := FLuaValue.Nil
  if Value.Type_ ≠ ELuaValueType.Nil then LuaValueCall Interp W Value Args
  else (ReturnValue, W)

/-- The method `FLuaValue::GetField` (in the missing `LuaValue.cpp`), taken as a
parameter: the value a table holds at a string key, Nil when there is none. Like
`GetFieldByIndex` it restores the stack itself. A key is the list of its characters. -/
abbrev FieldByKey := FLuaValue → List Nat → FLuaValue

/-- `ULuaBlueprintFunctionLibrary::LuaTableKeyCall`. -/
def LuaTableKeyCall (Interp : Interpreter) (GetField : FieldByKey) (W : World)
    (InTable : FLuaValue) (Key : List Nat) (Args : List FLuaValue) : FLuaValue × World :=
  let ReturnValue := FLuaValue.Nil
  if InTable.Type_ ≠ ELuaValueType.Table then (ReturnValue, W)
  else
    match W.Get InTable.LuaState with
    | none => (ReturnValue, W)
    | some _ =>
      let Value := GetField InTable Key
      if Value.Type_ = ELuaValueType.Nil then (ReturnValue, W)
      else LuaValueCall Interp W Value Args

/-- `ULuaBlueprintFunctionLibrary::LuaTableKeyCallWithSelf`; `Args.Insert(InTable, 0)`
puts the table in front of the arguments. -/
def LuaTableKeyCallWithSelf (Interp : Interpreter) (GetField : FieldByKey) (W : World)
    (InTable : FLuaValue) (Key : List Nat) (Args : List FLuaValue) : FLuaValue × World :=
  let ReturnValue := FLuaValue.Nil
  if InTable.Type_ ≠ ELuaValueType.Table then (ReturnValue, W)
  else
    match W.Get InTable.LuaState with
    | none => (ReturnValue, W)
    | some _ =>
      let Value := GetField InTable Key
      if Value.Type_ = ELuaValueType.Nil then (ReturnValue, W)
      else LuaValueCall Interp W Value (InTable :: Args)

/-- `ULuaBlueprintFunctionLibrary::LuaTableIndexCall`. -/
def LuaTableIndexCall (Interp : Interpreter) (GetFieldByIndex : FieldByIndex) (W : World)
    (InTable : FLuaValue) (Index : Int) (Args : List FLuaValue) : FLuaValue × World :=
  let ReturnValue := FLuaValue.Nil
  if InTable.Type_ ≠ ELuaValueType.Table then (ReturnValue, W)
  else
    match W.Get InTable.LuaState with
    | none => (ReturnValue, W)
    | some _ =>
      let Value := GetFieldByIndex InTable Index
      if Value.Type_ = ELuaValueType.Nil then (ReturnValue, W)
      else LuaValueCall Interp W Value Args

/-! ## Table protocol: fields, range, keys and values, schemas -/

/-- `ULuaBlueprintFunctionLibrary::LuaTableGetField`. -/
def LuaTableGetField (GetField : FieldByKey) (W : World) (Table : FLuaValue)
    (Key : List Nat) : FLuaValue :=
  match W.Get Table.LuaState with
  | none => FLuaValue.Nil
  | some _ => GetField Table Key

/-- `ULuaBlueprintFunctionLibrary::LuaTableGetByIndex`. -/
def LuaTableGetByIndex (GetFieldByIndex : FieldByIndex) (W : World) (Table : FLuaValue)
    (Index : Int) : FLuaValue :=
  if Table.Type_ ≠ ELuaValueType.Table then FLuaValue.Nil
  else
    match W.Get Table.LuaState with
    | none => FLuaValue.Nil
    | some _ => GetFieldByIndex Table Index

/-- The method `FLuaValue::SetFieldByIndex` (in the missing `LuaValue.cpp`), taken as a
parameter: what it returns and the world it leaves. -/
abbrev IndexSetter := World → FLuaValue → Int → FLuaValue → FLuaValue × World

/-- The method `FLuaValue::SetField` (in the missing `LuaValue.cpp`), taken as a
parameter: what it returns and the world it leaves. -/
abbrev KeySetter := World → FLuaValue → List Nat → FLuaValue → FLuaValue × World

/-- The method `FLuaValue::SetMetaTable` (in the missing `LuaValue.cpp`), taken as a
parameter: what it returns and the world it leaves. -/
abbrev MetaTableSetter := World → FLuaValue → FLuaValue → FLuaValue × World

/-- `ULuaBlueprintFunctionLibrary::LuaTableSetByIndex`. -/
def LuaTableSetByIndex (SetFieldByIndex : IndexSetter) (W : World) (Table : FLuaValue)
    (Index : Int) (Value : FLuaValue) : FLuaValue × World :=
  if Table.Type_ ≠ ELuaValueType.Table then (FLuaValue.Nil, W)
  else
    match W.Get Table.LuaState with
    | none => (FLuaValue.Nil, W)
    | some _ => SetFieldByIndex W Table Index Value

/-- `ULuaBlueprintFunctionLibrary::LuaTableSetField`. -/
def LuaTableSetField (SetField : KeySetter) (W : World) (Table : FLuaValue)
    (Key : List Nat) (Value : FLuaValue) : FLuaValue × World :=
  let ReturnValue := FLuaValue.Nil
  if Table.Type_ ≠ ELuaValueType.Table then (ReturnValue, W)
  else
    match W.Get Table.LuaState with
    | none => (ReturnValue, W)
    | some _ => SetField W Table Key Value

/-- `ULuaBlueprintFunctionLibrary::LuaTableSetMetaTable`. -/
def LuaTableSetMetaTable (SetMetaTable : MetaTableSetter) (W : World)
    (InTable InMetaTable : FLuaValue) : FLuaValue × World :=
  let ReturnValue := FLuaValue.Nil
  if InTable.Type_ ≠ ELuaValueType.Table ∨ InMetaTable.Type_ ≠ ELuaValueType.Table then
    (ReturnValue, W)
  else
    match W.Get InTable.LuaState with
    | none => (ReturnValue, W)
    | some _ => SetMetaTable W InTable InMetaTable

/-- The loop `for (int32 i = First; i <= Last; i++) ReturnValue.Add(InTable.GetFieldByIndex(i));`
The count of a `TArray` is an `int32`, so `Add` has no result once the array holds
`MAX_int32` elements. The loop returns the array when it ends, `none` when `Fuel`
iterations did not end it or when the array cannot take a further element. -/
def RangeLoop (GetFieldByIndex : FieldByIndex) (InTable : FLuaValue) (Last : Int) :
    Nat → Int → List FLuaValue → Option (List FLuaValue)
  | 0, i, ReturnValue => if i ≤ Last then none else some ReturnValue
  | Fuel + 1, i, ReturnValue =>
      if i ≤ Last then
        if (ReturnValue.length : Int) < MAX_int32 then
          RangeLoop GetFieldByIndex InTable Last Fuel (WrapInt32 (i + 1))
            (ReturnValue ++ [GetFieldByIndex InTable i])
        else none
      else some ReturnValue

/-- `ULuaBlueprintFunctionLibrary::LuaTableRange`. -/
def LuaTableRange (GetFieldByIndex : FieldByIndex) (Fuel : Nat) (InTable : FLuaValue)
    (First Last : Int) : Option (List FLuaValue) :=
  if InTable.Type_ ≠ ELuaValueType.Table then some []
  else RangeLoop GetFieldByIndex InTable Last Fuel First []

/-- Modelled from the spec: `ULuaState::PushNil` (in the missing `LuaState.cpp`): one Nil
slot on top of the stack. -/
def ULuaState.PushNil (L : ULuaState) : ULuaState :=
  { Stack := FLuaValue.Nil :: L.Stack, Trace := L.Trace ++ [LuaOp.PushNil] }

/-- The interpreter's table iteration, taken as a parameter: for a table and the previous
key (Nil to start), the next key and its value, or `none` when there is no further
entry. -/
abbrev TableTraversal := FLuaValue → FLuaValue → Option (FLuaValue × FLuaValue)

/-- Modelled from the spec: `ULuaState::Next(Index)` (in the missing `LuaState.cpp`): with
the previous key on top of the stack and the table at `Index`, it pops the key and,
when a further entry exists, pushes the next key, then its value, and returns true;
otherwise it pushes nothing and returns false. -/
def ULuaState.Next (Traversal : TableTraversal) (L : ULuaState) (Index : Int) :
    Bool × ULuaState :=
  let Table := L.ToLuaValue Index
  let Key := L.ToLuaValue (-1)
  let Below := L.Stack.drop 1
  let Trace := L.Trace ++ [LuaOp.Next Index]
  match Traversal Table Key with
  | none => (false, { Stack := Below, Trace := Trace })
  | some Entry => (true, { Stack := Entry.2 :: Entry.1 :: Below, Trace := Trace })

/-- The loop `while (L->Next(-2)) { Keys.Add(L->ToLuaValue(Slot)); L->Pop(); }` of
`LuaTableGetKeys` (`Slot = -2`, the key) and `LuaTableGetValues` (`Slot = -1`, the
value). It returns the array and the instance when `Next` returns false, `none` when
`Fuel` calls of `Next` did not get there. -/
def TraverseLoop (Traversal : TableTraversal) (Slot : Int) :
    Nat → ULuaState → List FLuaValue → Option (List FLuaValue × ULuaState)
  | 0, _, _ => none
  | Fuel + 1, L, Keys =>
      let Step := L.Next Traversal (-2)
      if Step.1 then
        TraverseLoop Traversal Slot Fuel (Step.2.Pop 1) (Keys ++ [Step.2.ToLuaValue Slot])
      else some (Keys, Step.2)

/-- `ULuaBlueprintFunctionLibrary::LuaTableGetKeys`. -/
def LuaTableGetKeys (Traversal : TableTraversal) (Fuel : Nat) (W : World)
    (Table : FLuaValue) : Option (List FLuaValue × World) :=
  if Table.Type_ ≠ ELuaValueType.Table then some ([], W)
  else
    match Table.LuaState with
    | none => some ([], W)
    | some This =>
      match W This with
      | none => some ([], W)
      | some L =>
        let L1 := (L.FromLuaValue This Table).PushNil
        match TraverseLoop Traversal (-2) Fuel L1 [] with
        | none => none
        | some Done => some (Done.1, Function.update W This (some (Done.2.Pop 1)))

/-- `ULuaBlueprintFunctionLibrary::LuaTableGetValues`. -/
def LuaTableGetValues (Traversal : TableTraversal) (Fuel : Nat) (W : World)
    (Table : FLuaValue) : Option (List FLuaValue × World) :=
  if Table.Type_ ≠ ELuaValueType.Table then some ([], W)
  else
    match Table.LuaState with
    | none => some ([], W)
    | some This =>
      match W This with
      | none => some ([], W)
      | some L =>
        let L1 := (L.FromLuaValue This Table).PushNil
        match TraverseLoop Traversal (-1) Fuel L1 [] with
        | none => none
        | some Done => some (Done.1, Function.update W This (some (Done.2.Pop 1)))

/-- The loop of `LuaTableImplements` over the pairs of the schema `TableAsset->Table`. -/
def ImplementsLoop (GetField : FieldByKey) (Table : FLuaValue) :
    List (List Nat × FLuaValue) → Bool
  | [] => true
  | Pair :: Rest =>
      let Item := GetField Table Pair.1
      if Item.Type_ = ELuaValueType.Nil then false
      else if Item.Type_ ≠ Pair.2.Type_ then false
      else ImplementsLoop GetField Table Rest

/-- `ULuaBlueprintFunctionLibrary::LuaTableImplements`; the schema is the map
`TableAsset->Table`, as the list of its pairs. -/
def LuaTableImplements (GetField : FieldByKey) (W : World) (Table : FLuaValue)
    (TableAsset : List (List Nat × FLuaValue)) : Bool :=
  if Table.Type_ ≠ ELuaValueType.Table then false
  else
    match W.Get Table.LuaState with
    | none => false
    | some _ => ImplementsLoop GetField Table TableAsset

/-- Modelled from the spec: the native length operator, as the interpreter applies it to
a value. -/
abbrev LengthOperator := FLuaValue → Int

/-- Modelled from the spec: `ULuaState::Len(Index)` (in the missing `LuaState.cpp`):
pushes the length of the value at `Index`. -/
def ULuaState.Len (LengthOf : LengthOperator) (L : ULuaState) (Index : Int) : ULuaState :=
  { Stack := FLuaValue.OfInteger (LengthOf (L.ToLuaValue Index)) :: L.Stack,
    Trace := L.Trace ++ [LuaOp.Len Index] }

/-- Modelled from the spec: `ULuaState::ToInteger(Index)` (in the missing `LuaState.cpp`),
for the slots met here: the payload of an Integer slot as an `int32`, zero for a slot
that holds no integer. -/
def ULuaState.ToInteger (L : ULuaState) (Index : Int) : Int :=
  if (L.ToLuaValue Index).Type_ = ELuaValueType.Integer then
    WrapInt32 (L.ToLuaValue Index).Integer
  else 0

/-- `ULuaBlueprintFunctionLibrary::LuaValueLength`. -/
def LuaValueLength (LengthOf : LengthOperator) (W : World) (Value : FLuaValue) :
    Int × World :=
  match Value.LuaState with
  | none => (0, W)
  | some This =>
    match W This with
    | none => (0, W)
    | some L =>
      let L1 := L.FromLuaValue This Value
      let L2 := L1.Len LengthOf (-1)
      let Length := L2.ToInteger (-1)
      let L3 := L2.Pop 2
      (Length, Function.update W This (some L3))

/-! ## Coroutine protocol -/

/-- What a native resume or yield leaves behind: the status it reports and the values
left on the stack above the thread's slot, bottom first. -/
structure ResumeOutcome where
  Status : Bool
  Left : List FLuaValue
  deriving DecidableEq, Repr

/-- The interpreter, as far as coroutines go: thread and arguments to outcome. -/
abbrev Resumer := FLuaValue → List FLuaValue → ResumeOutcome

/-- Modelled from the spec: `ULuaState::Resume(Index, NArgs)` (in the missing
`LuaState.cpp`), the native resume of the thread at `Index` with the `NArgs` topmost
slots as arguments: those slots are replaced by the values the resume leaves above the
thread's slot, and the status is returned. -/
def ULuaState.Resume (Co : Resumer) (L : ULuaState) (Index : Int) (NArgs : Nat) :
    Bool × ULuaState :=
  let Thread := L.ToLuaValue Index
  let ResumeArgs := (L.Stack.take NArgs).reverse
  let Outcome := Co Thread ResumeArgs
  (Outcome.Status,
    { Stack := Outcome.Left.reverse ++ L.Stack.drop NArgs,
      Trace := L.Trace ++ [LuaOp.Resume Index NArgs] })

/-- Modelled from the spec: `ULuaState::Yield(Index, NArgs)` (in the missing
`LuaState.cpp`), the native yield of the thread at `Index` with the `NArgs` topmost
slots as arguments: those slots are replaced by the values the yield leaves above the
thread's slot, and the status is returned. -/
def ULuaState.Yield (Co : Resumer) (L : ULuaState) (Index : Int) (NArgs : Nat) :
    Bool × ULuaState :=
  let Thread := L.ToLuaValue Index
  let YieldArgs := (L.Stack.take NArgs).reverse
  let Outcome := Co Thread YieldArgs
  (Outcome.Status,
    { Stack := Outcome.Left.reverse ++ L.Stack.drop NArgs,
      Trace := L.Trace ++ [LuaOp.Yield Index NArgs] })

/-- `ULuaBlueprintFunctionLibrary::LuaValueYield`: the world after the call. -/
def LuaValueYield (Co : Resumer) (W : World) (Value : FLuaValue)
    (Args : List FLuaValue) : World :=
  if Value.Type_ ≠ ELuaValueType.Thread then W
  else
    match Value.LuaState with
    | none => W
    | some This =>
      match W This with
      | none => W
      | some L =>
        let L1 := L.FromLuaValue This Value
        let Pushed := PushArgs This L1 Args
        let NArgs := Pushed.2
        let Yielded := ULuaState.Yield Co Pushed.1 (-1 - (NArgs : Int)) NArgs
        Function.update W This (some (Yielded.2.Pop 1))

/-- The body of `ULuaBlueprintFunctionLibrary::LuaValueResumeMulti` once the value is
known to be a Thread and `L` to be non-null. The status `L->Resume` returns is not
used. -/
def LuaValueResumeMultiBody (Co : Resumer) (This : Nat) (L : ULuaState)
    (Value : FLuaValue) (Args : List FLuaValue) : List FLuaValue × ULuaState :=
  let L1 := L.FromLuaValue This Value
  let StackTop := L1.GetTop
  let Pushed := PushArgs This L1 Args
  let NArgs := Pushed.2
  let Resumed := ULuaState.Resume Co Pushed.1 (-1 - (NArgs : Int)) NArgs
  let L2 := Resumed.2
  let NumOfReturnValues := L2.GetTop - StackTop
  if NumOfReturnValues > 0 then
    let ReturnValue := CollectResults L2 NumOfReturnValues NumOfReturnValues.toNat (-1) []
    let L3 := L2.Pop NumOfReturnValues
    (ReturnValue, L3.Pop 1)
  else ([], L2.Pop 1)

/-- `ULuaBlueprintFunctionLibrary::LuaValueResumeMulti`: the returned array and the world
after the call. -/
def LuaValueResumeMulti (Co : Resumer) (W : World) (Value : FLuaValue)
    (Args : List FLuaValue) : List FLuaValue × World :=
  if Value.Type_ ≠ ELuaValueType.Thread then ([], W)
  else
    match Value.LuaState with
    | none => ([], W)
    | some This =>
      match W This with
      | none => ([], W)
      | some L =>
        let Run := LuaValueResumeMultiBody Co This L Value Args
        (Run.1, Function.update W This (some Run.2))

/-- Modelled from the spec: the status of a thread (`ELuaThreadStatus`, declared in the
missing `LuaValue.h`): the coroutine states of the interpreter, and `Invalid` for a
value that is no thread of a live instance. -/
inductive ELuaThreadStatus where
  | Invalid
  | Suspended
  | Running
  | Dead
  | Normal
  deriving DecidableEq, Repr

/-- The smallest `int32`. -/
def MIN_int32 : Int := -2147483648

/-- `ULuaBlueprintFunctionLibrary::LuaThreadGetStatus`; the method
`ULuaState::GetLuaThreadStatus` (in the missing `LuaState.cpp`) is a parameter. -/
def LuaThreadGetStatus (GetLuaThreadStatus : ULuaState → FLuaValue → ELuaThreadStatus)
    (W : World) (Value : FLuaValue) : ELuaThreadStatus :=
  if Value.Type_ ≠ ELuaValueType.Thread then ELuaThreadStatus.Invalid
  else
    match W.Get Value.LuaState with
    | none => ELuaThreadStatus.Invalid
    | some L => GetLuaThreadStatus L Value

/-- `ULuaBlueprintFunctionLibrary::LuaThreadGetStackTop`; the method
`ULuaState::GetLuaThreadStackTop` (in the missing `LuaState.cpp`) is a parameter. -/
def LuaThreadGetStackTop (GetLuaThreadStackTop : ULuaState → FLuaValue → Int)
    (W : World) (Value : FLuaValue) : Int :=
  if Value.Type_ ≠ ELuaValueType.Thread then MIN_int32
  else
    match W.Get Value.LuaState with
    | none => MIN_int32
    | some L => GetLuaThreadStackTop L Value

/-- A thread value of instance `This` with registry key `LuaRef`. -/
def FLuaValue.ThreadRef (This : Nat) (LuaRef : Int) : FLuaValue :=
  { Type_ := ELuaValueType.Thread, Integer := LuaRef, String := [], LuaState := some This }

/-- The entries a traversal produces from the previous key `Key` on, in order:
each call of the traversal gives the next entry, and the call after the last entry
gives none. -/
def NextChain (Traversal : TableTraversal) (Table : FLuaValue) :
    FLuaValue → List (FLuaValue × FLuaValue) → Prop
  | Key, [] => Traversal Table Key = none
  | Key, Entry :: Rest =>
      Traversal Table Key = some Entry ∧ NextChain Traversal Table Entry.1 Rest

/-- A traversal for the examples: the table with registry key 1 holds `x = 10` and then
`y = 20` (the keys are the strings `x` and `y`), every other table is empty. -/
def ExampleTraversal : TableTraversal :=
  fun Table Key =>
    if Table.Integer = 1 then
      if Key.Type_ = ELuaValueType.Nil then
        some (FLuaValue.OfBytes [120], FLuaValue.OfInteger 10)
      else if Key = FLuaValue.OfBytes [120] then
        some (FLuaValue.OfBytes [121], FLuaValue.OfInteger 20)
      else none
    else none

/-- A field lookup for the examples: the table with registry key 1 holds the function with
registry key 1 under the key `f`, the integer 10 under `x` and the integer 20 under
`y`. -/
def ExampleKeyFields : FieldByKey :=
  fun Table Key =>
    if Table.Type_ = ELuaValueType.Table ∧ Table.Integer = 1 then
      if Key = [102] then FLuaValue.FunctionRef 0 1
      else if Key = [120] then FLuaValue.OfInteger 10
      else if Key = [121] then FLuaValue.OfInteger 20
      else FLuaValue.Nil
    else FLuaValue.Nil

/-- A coroutine oracle for the examples, covering the outcomes a resume can have: for the
thread with registry key 0 it reports failure and leaves nothing; for the thread with
key 1 it reports failure and leaves one value; for the thread with key 2 it reports
success and leaves that same value; for any other thread it reports success and leaves
the arguments followed by the integer 7. -/
def ExampleResumer : Resumer :=
  fun Thread ResumeArgs =>
    if Thread.Integer = 0 then { Status := false, Left := [] }
    else if Thread.Integer = 1 then { Status := false, Left := [FLuaValue.OfBytes [100, 101, 97, 100]] }
    else if Thread.Integer = 2 then { Status := true, Left := [FLuaValue.OfBytes [100, 101, 97, 100]] }
    else { Status := true, Left := ResumeArgs ++ [FLuaValue.OfInteger 7] }

/-- Setters for the examples: they return the value set and leave the world alone. -/
def ExampleIndexSetter : IndexSetter := fun W _ _ Value => (Value, W)

/-- See `ExampleIndexSetter`. -/
def ExampleKeySetter : KeySetter := fun W _ _ Value => (Value, W)

/-- See `ExampleIndexSetter`: it returns the table. -/
def ExampleMetaTableSetter : MetaTableSetter := fun W InTable _ => (InTable, W)

/-- The operations `LuaValueResumeMulti` logs up to and including the native resume:
the thread pushed, each argument pushed, the resume with the thread's index and the
argument count. -/
def ResumeOps (L : ULuaState) (Value : FLuaValue) (Args : List FLuaValue) : List LuaOp :=
  L.Trace ++ [LuaOp.FromLuaValue Value] ++ Args.map LuaOp.FromLuaValue
    ++ [LuaOp.Resume (-1 - (Args.length : Int)) Args.length]

/-- A length operator for the examples: every value has length 4. -/
def ExampleLength : LengthOperator := fun _ => 4

/-- A thread status for the examples: every thread of a live instance is suspended. -/
def ExampleThreadStatus : ULuaState → FLuaValue → ELuaThreadStatus :=
  fun _ _ => ELuaThreadStatus.Suspended

/-- A thread stack top for the examples: every thread of a live instance has an empty
stack. -/
def ExampleThreadStackTop : ULuaState → FLuaValue → Int := fun _ _ => 0

/-! ## Schemas: all and any -/

/-- `ULuaBlueprintFunctionLibrary::LuaTableImplementsAll`: the loop over the schemas
returns false at the first schema the value does not implement. -/
def LuaTableImplementsAll (GetField : FieldByKey) (W : World) (Table : FLuaValue) :
    List (List (List Nat × FLuaValue)) → Bool
  | [] => true
  | TableAsset :: Rest =>
      if !LuaTableImplements GetField W Table TableAsset then false
      else LuaTableImplementsAll GetField W Table Rest

/-- `ULuaBlueprintFunctionLibrary::LuaTableImplementsAny`: the loop over the schemas
returns true at the first schema the value implements. -/
def LuaTableImplementsAny (GetField : FieldByKey) (W : World) (Table : FLuaValue) :
    List (List (List Nat × FLuaValue)) → Bool
  | [] => false
  | TableAsset :: Rest =>
      if LuaTableImplements GetField W Table TableAsset then true
      else LuaTableImplementsAny GetField W Table Rest

/-! ## JSON -/

/-- `ULuaBlueprintFunctionLibrary::LuaValueToJson`. The method `FLuaValue::ToJsonValue` (in
the missing `LuaValue.cpp`) and the engine's `FJsonSerializer::Serialize` with its writer
are parameters: the JSON value of a dynamic value, and for a JSON value the flag the
serializer returns together with the text it writes into `Json`. The function returns
`Json`; the flag is not used. -/
def LuaValueToJson {FJsonValue : Type} (ToJsonValue : FLuaValue → FJsonValue)
    (Serialize : FJsonValue → Bool × List Nat) (Value : FLuaValue) : List Nat :=
  let Json := (Serialize (ToJsonValue Value)).2
  Json

/-- The fields of a table as the interpreter holds them, taken as a parameter: for a
table value, its string keys and their values. -/
abbrev TableFields := FLuaValue → List (List Nat × FLuaValue)

/-- The decimal digits of a natural number, most significant first, as characters. -/
def DecimalDigits : Nat → Nat → List Nat
  | 0, n => [48 + n % 10]
  | Fuel + 1, n => if n < 10 then [48 + n] else DecimalDigits Fuel (n / 10) ++ [48 + n % 10]

/-- The JSON text of an integer. -/
def JsonNumberText (Value : Int) : List Nat :=
  (if Value < 0 then [45] else []) ++ DecimalDigits Value.natAbs Value.natAbs

/-- The JSON text of the fields of an object, `"key":value` separated by commas, given
the encoder of the values; there is none as soon as one value has none. -/
def JsonFieldsText (Encode : FLuaValue → Option (List Nat)) :
    List (List Nat × FLuaValue) → Option (List Nat)
  | [] => some []
  | [Pair] =>
      match Encode Pair.2 with
      | none => none
      | some Text => some ([34] ++ Pair.1 ++ [34, 58] ++ Text)
  | Pair :: Next :: Rest =>
      match Encode Pair.2, JsonFieldsText Encode (Next :: Rest) with
      | some Text, some Others => some ([34] ++ Pair.1 ++ [34, 58] ++ Text ++ [44] ++ Others)
      | _, _ => none

/-- Modelled from the spec: `FLuaValue::ToJsonValue` (in the missing `LuaValue.cpp`). Nil,
booleans, numbers and strings map directly, a Table recurses into its fields (to the
nesting depth `Depth`), and a Function, Thread, host object or user data is not
representable and fails the encode. The JSON value is given by its text; `none` is the
failed encode, and also what a table nested deeper than `Depth` gets. -/
def FLuaValue.ToJsonValue (Fields : TableFields) : Nat → FLuaValue → Option (List Nat)
  | Depth, Value =>
    match Value.Type_ with
    | ELuaValueType.Nil => some [110, 117, 108, 108]
    | ELuaValueType.Bool =>
        some (if Value.Integer ≠ 0 then [116, 114, 117, 101] else [102, 97, 108, 115, 101])
    | ELuaValueType.Integer => some (JsonNumberText Value.Integer)
    | ELuaValueType.Number => some (JsonNumberText Value.Integer)
    | ELuaValueType.String => some ([34] ++ Value.String ++ [34])
    | ELuaValueType.Table =>
        match Depth with
        | 0 => none
        | Inner + 1 =>
          match JsonFieldsText (FLuaValue.ToJsonValue Fields Inner) (Fields Value) with
          | none => none
          | some Text => some ([123] ++ Text ++ [125])
    | ELuaValueType.Function => none
    | ELuaValueType.UserData => none
    | ELuaValueType.UObject => none
    | ELuaValueType.Thread => none

/-- A name (`FName`), as the list of its characters. -/
abbrev FName := List Nat

/-- The seven pin-category names of the engine's `UEdGraphSchema_K2` the library uses,
taken as parameters. -/
structure UEdGraphSchema_K2 where
  PC_Wildcard : FName
  PC_Boolean : FName
  PC_Int : FName
  PC_Real : FName
  PC_String : FName
  PC_Object : FName
  PC_Struct : FName
  deriving DecidableEq, Repr

/-- The seven pin-category names, in the order `PinCategoryToLuaValueType` tests them. -/
def UEdGraphSchema_K2.Names (K2 : UEdGraphSchema_K2) : List FName :=
  [K2.PC_Wildcard, K2.PC_Boolean, K2.PC_Int, K2.PC_Real, K2.PC_String, K2.PC_Object,
    K2.PC_Struct]

/-- `ULuaBlueprintFunctionLibrary::LuaValueTypeToPinCategory`. -/
def LuaValueTypeToPinCategory (K2 : UEdGraphSchema_K2) (Type_ : ELuaValueType) : FName :=
  match Type_ with
  | ELuaValueType.Nil => K2.PC_Wildcard
  | ELuaValueType.Bool => K2.PC_Boolean
  | ELuaValueType.Integer => K2.PC_Int
  | ELuaValueType.Number => K2.PC_Real
  | ELuaValueType.String => K2.PC_String
  | ELuaValueType.UObject => K2.PC_Object
  | _ => K2.PC_Struct

/-- `ULuaBlueprintFunctionLibrary::PinCategoryToLuaValueType`. -/
def PinCategoryToLuaValueType (K2 : UEdGraphSchema_K2) (PinCategory : FName) :
    ELuaValueType :=
  if PinCategory = K2.PC_Wildcard then ELuaValueType.Nil
  else if PinCategory = K2.PC_Boolean then ELuaValueType.Bool
  else if PinCategory = K2.PC_Int then ELuaValueType.Integer
  else if PinCategory = K2.PC_Real then ELuaValueType.Number
  else if PinCategory = K2.PC_String then ELuaValueType.String
  else if PinCategory = K2.PC_Object then ELuaValueType.UObject
  else if PinCategory = K2.PC_Struct then ELuaValueType.Table
  else ELuaValueType.Table

/-- Pin-category names for the examples: `wildcard`, `bool`, `int`, `real`, `string`,
`object`, `struct`. -/
def ExampleK2 : UEdGraphSchema_K2 :=
  { PC_Wildcard := [119, 105, 108, 100, 99, 97, 114, 100],
    PC_Boolean := [98, 111, 111, 108],
    PC_Int := [105, 110, 116],
    PC_Real := [114, 101, 97, 108],
    PC_String := [115, 116, 114, 105, 110, 103],
    PC_Object := [111, 98, 106, 101, 99, 116],
    PC_Struct := [115, 116, 114, 117, 99, 116] }

/-- The enumeration `ELuaSubCategoryObjectType` (declared in a header that is missing),
taken as a parameter: the numeric values of the enumerators the library uses. -/
structure ELuaSubCategoryObjectType where
  Table : Nat
  Vector : Nat
  MAX : Nat
  deriving DecidableEq, Repr

/-- The objects the table of sub-category objects can point to. -/
inductive UObjectRef where
  | LuaValueStruct
  | VectorStruct
  | UObjectClass
  deriving DecidableEq, Repr

/-- The body of the `switch (Enum)` in `InitializeLuaSubCategoryObjects`: what is added
for the enumerator with value `iEnum` (`none` is the null pointer). -/
def SubCategoryObjectFor (E : ELuaSubCategoryObjectType) (iEnum : Nat) : Option UObjectRef :=
  if iEnum = E.Table then some UObjectRef.LuaValueStruct
  else if iEnum = E.Vector then some UObjectRef.VectorStruct
  else none

/-- `ULuaBlueprintFunctionLibrary::InitializeLuaSubCategoryObjects`, on the global array
`LuaSubCategoryObjects`: the array after the call. -/
def InitializeLuaSubCategoryObjects (E : ELuaSubCategoryObjectType)
    (LuaSubCategoryObjects : List (Option UObjectRef)) : List (Option UObjectRef) :=
  if LuaSubCategoryObjects.length < E.MAX then
    (List.range E.MAX).foldl (fun Objects iEnum => Objects ++ [SubCategoryObjectFor E iEnum]) []
  else LuaSubCategoryObjects

/-- `ULuaBlueprintFunctionLibrary::ObjectTypeFromLuaSubCategoryObjectType`: the object
returned and the global array after the call. The outer `none` is an index outside
the array. -/
def ObjectTypeFromLuaSubCategoryObjectType (E : ELuaSubCategoryObjectType)
    (LuaSubCategoryObjects : List (Option UObjectRef)) (Type_ : ELuaValueType)
    (LuaSubCategoryObjectType : Nat) :
    Option (Option UObjectRef) × List (Option UObjectRef) :=
  match Type_ with
  | ELuaValueType.UObject => (some (some UObjectRef.UObjectClass), LuaSubCategoryObjects)
  | ELuaValueType.Table =>
      let Objects := InitializeLuaSubCategoryObjects E LuaSubCategoryObjects
      (Objects[LuaSubCategoryObjectType]?, Objects)
  | _ => (some none, LuaSubCategoryObjects)

/-- An enumeration for the examples: `Nil = 0`, `Table = 1`, `Vector = 2`, one further
enumerator `3`, `MAX = 4`. -/
def ExampleSubCategories : ELuaSubCategoryObjectType :=
  { Table := 1, Vector := 2, MAX := 4 }

/-! # Theorems -/

/-! ## Lemmas on the marshalling primitives -/

theorem drop_eq_getD_cons {α : Type} (d : α) :
    ∀ (l : List α) (k : Nat), k < l.length → l.drop k = l.getD k d :: l.drop (k + 1)
  | [], k, h => by simp at h
  | a :: l, 0, _ => by simp
  | a :: l, k + 1, h => by
    have h1 : k < l.length := by simpa using h
    simpa using drop_eq_getD_cons d l k h1

theorem getD_take_of_lt {α : Type} (d : α) :
    ∀ (l : List α) (n k : Nat), k < n → (l.take n).getD k d = l.getD k d
  | [], n, k, _ => by simp
  | a :: l, 0, k, h => by omega
  | a :: l, n + 1, 0, _ => by simp
  | a :: l, n + 1, k + 1, h => by
    have h1 : k < n := by omega
    simpa using getD_take_of_lt d l n k h1

theorem PushArgs_fold (This : Nat) (Args : List FLuaValue) :
    ∀ (S : ULuaState × Nat),
      Args.foldl (fun S Arg => (S.1.FromLuaValue This Arg, S.2 + 1)) S =
        ({ Stack := (Args.map (PushedValue This)).reverse ++ S.1.Stack,
           Trace := S.1.Trace ++ Args.map LuaOp.FromLuaValue }, S.2 + Args.length) := by
  induction Args with
  | nil => intro S; simp
  | cons Arg Rest ih =>
    intro S
    rw [List.foldl_cons, ih]
    simp only [ULuaState.FromLuaValue, List.map_cons, List.reverse_cons,
      List.append_assoc, List.singleton_append, List.length_cons]
    refine Prod.ext rfl ?_
    simp only
    omega

theorem PushArgs_eq (This : Nat) (L : ULuaState) (Args : List FLuaValue) :
    PushArgs This L Args =
      ({ Stack := (Args.map (PushedValue This)).reverse ++ L.Stack,
         Trace := L.Trace ++ Args.map LuaOp.FromLuaValue }, Args.length) := by
  unfold PushArgs
  rw [PushArgs_fold]
  simp

theorem CollectResults_eq (L : ULuaState) (n : Nat) (hn : n ≤ L.Stack.length) :
    ∀ (Fuel k : Nat) (Acc : List FLuaValue), k + Fuel = n →
      CollectResults L (n : Int) Fuel (-((k : Int) + 1)) Acc =
        ((L.Stack.take n).drop k).reverse ++ Acc := by
  intro Fuel
  induction Fuel with
  | zero =>
    intro k Acc hk
    have : k = n := by omega
    subst this
    simp [CollectResults]
  | succ Fuel ih =>
    intro k Acc hk
    have hkn : k < n := by omega
    have hcond : -((k : Int) + 1) ≥ -(n : Int) := by omega
    have hstep : -((k : Int) + 1) - 1 = -(((k + 1 : Nat) : Int) + 1) := by push_cast; ring
    have hread : L.ToLuaValue (-((k : Int) + 1)) = L.Stack.getD k FLuaValue.Nil := by
      have hneg : -((k : Int) + 1) < 0 := by omega
      have hidx : (- -((k : Int) + 1) - 1).toNat = k := by omega
      simp only [ULuaState.ToLuaValue, hneg, if_true, hidx]
    have hlen : k < (L.Stack.take n).length := by
      rw [List.length_take]; omega
    have hdrop : (L.Stack.take n).drop k =
        L.Stack.getD k FLuaValue.Nil :: (L.Stack.take n).drop (k + 1) := by
      rw [drop_eq_getD_cons FLuaValue.Nil _ k hlen, getD_take_of_lt FLuaValue.Nil _ n k hkn]
    simp only [CollectResults, hcond, if_true]
    rw [hstep, ih (k + 1) _ (by omega), hread, hdrop]
    simp

/-- The stack a protected call works on once the callee and the arguments are pushed:
the call sees the pushed callee and the pushed arguments in order, above the base. -/
theorem PCall_after_push (Interp : Interpreter) (This : Nat) (L : ULuaState)
    (Value : FLuaValue) (Args : List FLuaValue) (Out : FLuaValue) (NRet : Int) :
    ULuaState.PCall Interp (PushArgs This (L.FromLuaValue This Value) Args).1
        (PushArgs This (L.FromLuaValue This Value) Args).2 Out NRet =
      match Interp (PushedValue This Value) (Args.map (PushedValue This)) with
      | PCallOutcome.Error Message =>
          (false, Out,
            { Stack := Message :: L.Stack,
              Trace := L.Trace ++ [LuaOp.FromLuaValue Value] ++ Args.map LuaOp.FromLuaValue
                ++ [LuaOp.PCall Args.length NRet] })
      | PCallOutcome.Success Results =>
          (true,
            if NRet > 0 then
              ({ Stack := (AdjustResults NRet Results).reverse ++ L.Stack,
                 Trace := L.Trace ++ [LuaOp.FromLuaValue Value] ++ Args.map LuaOp.FromLuaValue
                   ++ [LuaOp.PCall Args.length NRet] } : ULuaState).ToLuaValue (-1)
            else Out,
            { Stack := (AdjustResults NRet Results).reverse ++ L.Stack,
              Trace := L.Trace ++ [LuaOp.FromLuaValue Value] ++ Args.map LuaOp.FromLuaValue
                ++ [LuaOp.PCall Args.length NRet] }) := by
  rw [PushArgs_eq]
  have hlen : ((Args.map (PushedValue This)).reverse).length = Args.length := by simp
  have hcallee : ((Args.map (PushedValue This)).reverse ++
      (L.FromLuaValue This Value).Stack).getD Args.length FLuaValue.Nil = PushedValue This Value := by
    rw [List.getD_append_right _ _ _ _ (by simp)]
    simp [ULuaState.FromLuaValue]
  have htake : (((Args.map (PushedValue This)).reverse ++
      (L.FromLuaValue This Value).Stack).take Args.length).reverse = Args.map (PushedValue This) := by
    rw [List.take_left' hlen]
    simp
  have hdrop : ((Args.map (PushedValue This)).reverse ++
      (L.FromLuaValue This Value).Stack).drop (Args.length + 1) = L.Stack := by
    rw [List.drop_append_eq_append_drop]
    simp [ULuaState.FromLuaValue]
  simp only [ULuaState.PCall, hcallee, htake, hdrop]
  cases Interp (PushedValue This Value) (Args.map (PushedValue This)) <;>
    simp [ULuaState.FromLuaValue]

theorem LuaValueCallMultiBody_success (Interp : Interpreter) (This : Nat) (L : ULuaState)
    (Value : FLuaValue) (Args Results : List FLuaValue)
    (hCall : Interp (PushedValue This Value) (Args.map (PushedValue This))
      = PCallOutcome.Success Results) :
    LuaValueCallMultiBody Interp This L Value Args =
      { ReturnValue := Results,
        NumOfReturnValues := some (Results.length : Int),
        L := { Stack := if Results = [] then L.Stack.drop 1 else L.Stack,
               Trace := CallOps L Value Args LUA_MULTRET ++
                 (if Results = [] then [LuaOp.Pop 1]
                  else [LuaOp.Pop ((Results.length : Int) - 1), LuaOp.Pop 1]) } } := by
  unfold LuaValueCallMultiBody
  simp only [PCall_after_push, hCall]
  have hadj : AdjustResults LUA_MULTRET Results = Results := by
    simp [AdjustResults, LUA_MULTRET]
  have hnum : ∀ T : List LuaOp,
      (({ Stack := (AdjustResults LUA_MULTRET Results).reverse ++ L.Stack, Trace := T } :
        ULuaState).GetTop - (L.FromLuaValue This Value).GetTop) + 1 = (Results.length : Int) := by
    intro T
    simp only [hadj, ULuaState.GetTop, ULuaState.FromLuaValue, List.length_append,
      List.length_reverse, List.length_cons]
    push_cast
    ring
  simp only [hnum, if_true]
  cases hR : Results with
  | nil =>
    simp [AdjustResults, LUA_MULTRET, ULuaState.Pop, CallOps]
  | cons r Rest =>
    have hpos : ((r :: Rest).length : Int) > 0 := by simp
    have hle : (r :: Rest).length ≤
        (({ Stack := (AdjustResults LUA_MULTRET (r :: Rest)).reverse ++ L.Stack,
            Trace := CallOps L Value Args LUA_MULTRET } : ULuaState)).Stack.length := by
      simp [AdjustResults, LUA_MULTRET]
    have hcollect := CollectResults_eq _ (r :: Rest).length hle (r :: Rest).length 0 [] (by simp)
    simp only [Nat.cast_zero, zero_add, Int.toNat_ofNat] at hcollect
    simp only [hpos, if_true, Int.toNat_ofNat]
    unfold CallOps at hcollect
    rw [hcollect]
    simp [AdjustResults, LUA_MULTRET, ULuaState.Pop, CallOps]
    have hsplit : Rest.reverse ++ r :: L.Stack = (Rest.reverse ++ [r]) ++ L.Stack := by simp
    rw [hsplit, List.take_left' (by simp)]

theorem LuaValueCallMultiBody_error (Interp : Interpreter) (This : Nat) (L : ULuaState)
    (Value : FLuaValue) (Args : List FLuaValue) (Message : FLuaValue)
    (hCall : Interp (PushedValue This Value) (Args.map (PushedValue This))
      = PCallOutcome.Error Message) :
    LuaValueCallMultiBody Interp This L Value Args =
      { ReturnValue := [],
        NumOfReturnValues := none,
        L := { Stack := L.Stack,
               Trace := CallOps L Value Args LUA_MULTRET ++ [LuaOp.Pop 1] } } := by
  unfold LuaValueCallMultiBody
  simp only [PCall_after_push, hCall]
  simp [ULuaState.Pop, CallOps]

theorem LuaValueCallMulti_live (Interp : Interpreter) (W : World) (Value : FLuaValue)
    (Args : List FLuaValue) (This : Nat) (L : ULuaState)
    (hRef : Value.LuaState = some This) (hLive : W This = some L) :
    LuaValueCallMulti Interp W Value Args =
      ((LuaValueCallMultiBody Interp This L Value Args).ReturnValue,
        Function.update W This (some (LuaValueCallMultiBody Interp This L Value Args).L)) := by
  simp [LuaValueCallMulti, hRef, hLive]

theorem LuaValueCall_live (Interp : Interpreter) (W : World) (Value : FLuaValue)
    (Args : List FLuaValue) (This : Nat) (L : ULuaState)
    (hRef : Value.LuaState = some This) (hLive : W This = some L) :
    LuaValueCall Interp W Value Args =
      (match Interp (PushedValue This Value) (Args.map (PushedValue This)) with
        | PCallOutcome.Error _ => FLuaValue.Nil
        | PCallOutcome.Success Results => Results.headD FLuaValue.Nil,
       Function.update W This
        (some { Stack := L.Stack, Trace := CallOps L Value Args 1 ++ [LuaOp.Pop 1] })) := by
  simp only [LuaValueCall, hRef, hLive, PCall_after_push]
  cases hI : Interp (PushedValue This Value) (Args.map (PushedValue This)) with
  | Error Message => simp [ULuaState.Pop, CallOps]
  | Success Results =>
    cases Results with
    | nil => simp [ULuaState.Pop, CallOps, AdjustResults, ULuaState.ToLuaValue]
    | cons r Rest => simp [ULuaState.Pop, CallOps, AdjustResults, ULuaState.ToLuaValue]

theorem World_Depth_update (W : World) (This : Nat) (L : ULuaState) :
    World.Depth (Function.update W This (some L)) This = L.Stack.length := by
  simp [World.Depth]

theorem World_TraceOf_update (W : World) (This : Nat) (L : ULuaState) :
    World.TraceOf (Function.update W This (some L)) This = L.Trace := by
  simp [World.TraceOf]

/-- The stack depth `LuaValueCallMulti` leaves on a live instance, for every outcome of
the native call: unchanged on failure and on success with at least one result, one
slot short on success without results. -/
theorem LuaValueCallMulti_depth (Interp : Interpreter) (W : World) (Value : FLuaValue)
    (Args : List FLuaValue) (This : Nat) (L : ULuaState)
    (hRef : Value.LuaState = some This) (hLive : W This = some L) :
    World.Depth (LuaValueCallMulti Interp W Value Args).2 This =
      match Interp (PushedValue This Value) (Args.map (PushedValue This)) with
      | PCallOutcome.Error _ => L.Stack.length
      | PCallOutcome.Success [] => L.Stack.length - 1
      | PCallOutcome.Success (_ :: _) => L.Stack.length := by
  rw [LuaValueCallMulti_live Interp W Value Args This L hRef hLive, World_Depth_update]
  cases hI : Interp (PushedValue This Value) (Args.map (PushedValue This)) with
  | Error Message => rw [LuaValueCallMultiBody_error Interp This L Value Args Message hI]
  | Success Results =>
    rw [LuaValueCallMultiBody_success Interp This L Value Args Results hI]
    cases Results with
    | nil => simp
    | cons r Rest => simp

/-- C1, at the failing input: on an instance whose stack holds one slot, calling a
function that succeeds and returns no values leaves the stack empty, one slot short of
the depth before the call. -/
theorem LuaValueCallMulti_no_results_unbalanced :
    World.Depth ExampleWorld 0 = 1 ∧
    ExampleInterpreter (FLuaValue.FunctionRef 0 0) [] = PCallOutcome.Success [] ∧
    World.Depth
      (LuaValueCallMulti ExampleInterpreter ExampleWorld (FLuaValue.FunctionRef 0 0) []).2 0
        = 0 := by
  decide

/-- C2: for a Function value of a live instance whose call succeeds with the results
`Results`, `LuaValueCallMulti` returns exactly `Results`, in the callee's order, and the
count it computes is the number of results. -/
theorem LuaValueCallMulti_returns_results (Interp : Interpreter) (W : World)
    (Value : FLuaValue) (Args : List FLuaValue) (This : Nat) (L : ULuaState)
    (Results : List FLuaValue)
    (hType : Value.Type_ = ELuaValueType.Function)
    (hRef : Value.LuaState = some This) (hLive : W This = some L)
    (hCall : Interp Value (Args.map (PushedValue This)) = PCallOutcome.Success Results) :
    (LuaValueCallMulti Interp W Value Args).1 = Results ∧
    (LuaValueCallMulti Interp W Value Args).1.length = Results.length ∧
    (LuaValueCallMultiBody Interp This L Value Args).NumOfReturnValues
      = some (Results.length : Int) := by
  have hPush : PushedValue This Value = Value := by
    simp [PushedValue, FLuaValue.IsSelfContained, hType, hRef]
  rw [← hPush] at hCall
  rw [LuaValueCallMulti_live Interp W Value Args This L hRef hLive,
    LuaValueCallMultiBody_success Interp This L Value Args Results hCall]
  exact ⟨rfl, rfl, rfl⟩

/-- C2, witness: two arguments, three results, returned in the callee's order. -/
theorem LuaValueCallMulti_returns_results_witness :
    (LuaValueCallMulti ExampleInterpreter ExampleWorld (FLuaValue.FunctionRef 0 1)
        [FLuaValue.OfInteger 1, FLuaValue.OfInteger 2]).1
      = [FLuaValue.OfInteger 1, FLuaValue.OfInteger 2, FLuaValue.OfInteger 7] ∧
    (LuaValueCallMulti ExampleInterpreter ExampleWorld (FLuaValue.FunctionRef 0 1)
        [FLuaValue.OfInteger 1, FLuaValue.OfInteger 2]).1.length = 3 ∧
    (LuaValueCallMultiBody ExampleInterpreter 0 ExampleState (FLuaValue.FunctionRef 0 1)
        [FLuaValue.OfInteger 1, FLuaValue.OfInteger 2]).NumOfReturnValues = some 3 :=
  LuaValueCallMulti_returns_results ExampleInterpreter ExampleWorld (FLuaValue.FunctionRef 0 1)
    [FLuaValue.OfInteger 1, FLuaValue.OfInteger 2] 0 ExampleState
    [FLuaValue.OfInteger 1, FLuaValue.OfInteger 2, FLuaValue.OfInteger 7] rfl rfl rfl rfl

/-- C10, counterexample: a Table value of a live instance is pushed and the native
protected call is invoked on it, by `LuaValueCall` and by `LuaValueCallMulti`. -/
theorem LuaValueCall_table_is_called :
    (FLuaValue.TableRef 0 1).Type_ ≠ ELuaValueType.Function ∧
    World.TraceOf (LuaValueCall ExampleInterpreter ExampleWorld (FLuaValue.TableRef 0 1) []).2 0
      = [LuaOp.FromLuaValue (FLuaValue.TableRef 0 1), LuaOp.PCall 0 1, LuaOp.Pop 1] ∧
    World.TraceOf
        (LuaValueCallMulti ExampleInterpreter ExampleWorld (FLuaValue.TableRef 0 1) []).2 0
      = [LuaOp.FromLuaValue (FLuaValue.TableRef 0 1), LuaOp.PCall 0 LUA_MULTRET,
          LuaOp.Pop 1] := by
  decide

/-- C10, as amended: `LuaValueCall` and `LuaValueCallMulti` check no variant. For a value
of any variant that carries a live instance they push the value, push the arguments and
invoke the native protected call; when that call fails, `LuaValueCall` returns Nil and
`LuaValueCallMulti` returns the empty array. -/
theorem LuaValueCall_any_variant (Interp : Interpreter) (W : World) (Value : FLuaValue)
    (Args : List FLuaValue) (This : Nat) (L : ULuaState)
    (hRef : Value.LuaState = some This) (hLive : W This = some L) :
    World.TraceOf (LuaValueCall Interp W Value Args).2 This
      = CallOps L Value Args 1 ++ [LuaOp.Pop 1] ∧
    (∃ Rest, World.TraceOf (LuaValueCallMulti Interp W Value Args).2 This
      = CallOps L Value Args LUA_MULTRET ++ Rest) ∧
    (∀ Message, Interp (PushedValue This Value) (Args.map (PushedValue This))
        = PCallOutcome.Error Message →
      (LuaValueCall Interp W Value Args).1 = FLuaValue.Nil ∧
      (LuaValueCallMulti Interp W Value Args).1 = []) := by
  refine ⟨?_, ?_, ?_⟩
  · rw [LuaValueCall_live Interp W Value Args This L hRef hLive, World_TraceOf_update]
  · rw [LuaValueCallMulti_live Interp W Value Args This L hRef hLive, World_TraceOf_update]
    cases hI : Interp (PushedValue This Value) (Args.map (PushedValue This)) with
    | Error Message =>
      rw [LuaValueCallMultiBody_error Interp This L Value Args Message hI]
      exact ⟨_, rfl⟩
    | Success Results =>
      rw [LuaValueCallMultiBody_success Interp This L Value Args Results hI]
      exact ⟨_, rfl⟩
  · intro Message hI
    rw [LuaValueCall_live Interp W Value Args This L hRef hLive,
      LuaValueCallMulti_live Interp W Value Args This L hRef hLive,
      LuaValueCallMultiBody_error Interp This L Value Args Message hI, hI]
    exact ⟨rfl, rfl⟩

/-- C10 as amended, witness: a Table value of the example instance, no arguments. -/
theorem LuaValueCall_any_variant_witness :
    World.TraceOf
        (LuaValueCall ExampleInterpreter ExampleWorld (FLuaValue.TableRef 0 1) []).2 0
      = CallOps ExampleState (FLuaValue.TableRef 0 1) [] 1 ++ [LuaOp.Pop 1] ∧
    (∃ Rest, World.TraceOf
        (LuaValueCallMulti ExampleInterpreter ExampleWorld (FLuaValue.TableRef 0 1) []).2 0
      = CallOps ExampleState (FLuaValue.TableRef 0 1) [] LUA_MULTRET ++ Rest) ∧
    (∀ Message, ExampleInterpreter (PushedValue 0 (FLuaValue.TableRef 0 1))
        (([] : List FLuaValue).map (PushedValue 0)) = PCallOutcome.Error Message →
      (LuaValueCall ExampleInterpreter ExampleWorld (FLuaValue.TableRef 0 1) []).1
        = FLuaValue.Nil ∧
      (LuaValueCallMulti ExampleInterpreter ExampleWorld (FLuaValue.TableRef 0 1) []).1 = []) :=
  LuaValueCall_any_variant ExampleInterpreter ExampleWorld (FLuaValue.TableRef 0 1) [] 0
    ExampleState rfl rfl

/-! ## Unpacking -/

theorem WrapInt32_succ (i : Nat) (h : (i : Int) + 1 ≤ MAX_int32) :
    WrapInt32 ((i : Int) + 1) = ((i + 1 : Nat) : Int) := by
  unfold MAX_int32 at h
  unfold WrapInt32
  push_cast
  omega

/-- The unpack loop started at index `i` below or at the first hole `k` breaks at `k`,
having added the fields from `i` to `k - 1`. -/
theorem UnpackLoop_eq (GetFieldByIndex : FieldByIndex) (InTable : FLuaValue) (k : Nat)
    (hMax : (k : Int) ≤ MAX_int32)
    (hNil : (GetFieldByIndex InTable (k : Int)).Type_ = ELuaValueType.Nil)
    (hBelow : ∀ j : Nat, 1 ≤ j → j < k →
      (GetFieldByIndex InTable (j : Int)).Type_ ≠ ELuaValueType.Nil) :
    ∀ (d i Fuel : Nat) (Acc : List FLuaValue), 1 ≤ i → i + d = k → d < Fuel →
      UnpackLoop GetFieldByIndex InTable Fuel (i : Int) Acc =
        some (WrapInt32 ((k : Int) + 1),
          Acc ++ (List.range d).map (fun (j : Nat) => GetFieldByIndex InTable ((i : Int) + (j : Int)))) := by
  intro d
  induction d with
  | zero =>
    intro i Fuel Acc _ hik hFuel
    have hi : i = k := by omega
    subst hi
    obtain ⟨f, rfl⟩ : ∃ f, Fuel = f + 1 := ⟨Fuel - 1, by omega⟩
    simp [UnpackLoop, hNil]
  | succ d ih =>
    intro i Fuel Acc hi hik hFuel
    obtain ⟨f, rfl⟩ : ∃ f, Fuel = f + 1 := ⟨Fuel - 1, by omega⟩
    have hItem : (GetFieldByIndex InTable (i : Int)).Type_ ≠ ELuaValueType.Nil :=
      hBelow i hi (by omega)
    have hWrap : WrapInt32 ((i : Int) + 1) = ((i + 1 : Nat) : Int) :=
      WrapInt32_succ i (by have : (i : Int) + 1 ≤ (k : Int) := by omega
                           omega)
    simp only [UnpackLoop, hItem, if_false, hWrap]
    rw [ih (i + 1) f _ (by omega) (by omega) (by omega)]
    have hList : (List.range (d + 1)).map
          (fun (j : Nat) => GetFieldByIndex InTable ((i : Int) + (j : Int))) =
        GetFieldByIndex InTable (i : Int) ::
          (List.range d).map
            (fun (j : Nat) => GetFieldByIndex InTable (((i + 1 : Nat) : Int) + (j : Int))) := by
      rw [List.range_succ_eq_map, List.map_cons, List.map_map]
      refine congrArg₂ _ (by simp) ?_
      apply List.map_congr_left
      intro j _
      have hIdx : (i : Int) + ((Nat.succ j : Nat) : Int) = ((i + 1 : Nat) : Int) + (j : Int) := by
        push_cast; ring
      simp only [Function.comp, hIdx]
    rw [hList]
    simp

/-- C3, at the failing input: for the tables `{1}` and `{2, 3, 4}` the merge reads the
second table from index 3 on and returns `[1, 4]`, while the two unpackings give
`[1]` and `[2, 3, 4]`. -/
theorem LuaTableMergeUnpack_keeps_index :
    LuaTableMergeUnpack ExampleFields 4 (FLuaValue.TableRef 0 3) (FLuaValue.TableRef 0 2)
      = some [FLuaValue.OfInteger 1, FLuaValue.OfInteger 4] ∧
    LuaTableUnpack ExampleFields 4 (FLuaValue.TableRef 0 3) = some [FLuaValue.OfInteger 1] ∧
    LuaTableUnpack ExampleFields 4 (FLuaValue.TableRef 0 2)
      = some [FLuaValue.OfInteger 2, FLuaValue.OfInteger 3, FLuaValue.OfInteger 4] := by
  decide

/-- C4: a value that is no Table unpacks to the empty array; a Table whose first Nil
field among the positive indices is at `k` unpacks, as soon as the loop may run `k`
times, to exactly the fields at `1 .. k - 1`. Only the index lookup is used. -/
theorem LuaTableUnpack_stops_at_first_hole (GetFieldByIndex : FieldByIndex)
    (InTable : FLuaValue) :
    (InTable.Type_ ≠ ELuaValueType.Table →
      ∀ Fuel, LuaTableUnpack GetFieldByIndex Fuel InTable = some []) ∧
    (InTable.Type_ = ELuaValueType.Table →
      ∀ k : Nat, 1 ≤ k → (k : Int) ≤ MAX_int32 →
        (GetFieldByIndex InTable (k : Int)).Type_ = ELuaValueType.Nil →
        (∀ j : Nat, 1 ≤ j → j < k →
          (GetFieldByIndex InTable (j : Int)).Type_ ≠ ELuaValueType.Nil) →
        ∀ Fuel, k ≤ Fuel →
          LuaTableUnpack GetFieldByIndex Fuel InTable
            = some (FieldsBelow GetFieldByIndex InTable k)) := by
  refine ⟨?_, ?_⟩
  · intro hType Fuel
    simp [LuaTableUnpack, hType]
  · intro hType k hk hMax hNil hBelow Fuel hFuel
    have hLoop := UnpackLoop_eq GetFieldByIndex InTable k hMax hNil hBelow (k - 1) 1 Fuel []
      (le_refl 1) (by omega) (by omega)
    simp only [Nat.cast_one] at hLoop
    have hList : (List.range (k - 1)).map
          (fun (j : Nat) => GetFieldByIndex InTable ((1 : Int) + (j : Int))) =
        FieldsBelow GetFieldByIndex InTable k := by
      unfold FieldsBelow
      apply List.map_congr_left
      intro j _
      rw [add_comm]
    simp only [LuaTableUnpack, hType, ne_eq, not_true_eq_false, if_false, hLoop, List.nil_append,
      hList]

/-- C4, witness: the table `{10, 20, nil, 40}` unpacks to `[10, 20]`, and an integer
unpacks to the empty array. -/
theorem LuaTableUnpack_stops_at_first_hole_witness :
    LuaTableUnpack ExampleFields 3 (FLuaValue.TableRef 0 1)
      = some (FieldsBelow ExampleFields (FLuaValue.TableRef 0 1) 3) ∧
    FieldsBelow ExampleFields (FLuaValue.TableRef 0 1) 3
      = [FLuaValue.OfInteger 10, FLuaValue.OfInteger 20] ∧
    LuaTableUnpack ExampleFields 0 (FLuaValue.OfInteger 5) = some [] :=
  ⟨(LuaTableUnpack_stops_at_first_hole ExampleFields (FLuaValue.TableRef 0 1)).2 rfl 3
      (by decide) (by decide) (by decide)
      (by intro j h1 h2; interval_cases j <;> decide) 3 (le_refl 3),
    by decide,
    (LuaTableUnpack_stops_at_first_hole ExampleFields (FLuaValue.OfInteger 5)).1
      (by decide) 0⟩

/-! ## UTF-16 -/

theorem low_byte_eq (c : Nat) : ((c % 65536) &&& 0xFF) % 256 = c % 256 := by
  have h : (c % 65536) &&& 0xFF = (c % 65536) % 2 ^ 8 :=
    Nat.and_pow_two_sub_one_eq_mod (c % 65536) 8
  rw [h]
  omega

theorem high_byte_eq (c : Nat) : (((c % 65536) >>> 8) &&& 0xFF) % 256 = c % 65536 / 256 := by
  have h : ((c % 65536) >>> 8) &&& 0xFF = ((c % 65536) >>> 8) % 2 ^ 8 :=
    Nat.and_pow_two_sub_one_eq_mod ((c % 65536) >>> 8) 8
  rw [h, Nat.shiftRight_eq_div_pow]
  omega

theorem combine_bytes (High Low : Nat) (hH : High < 256) (hL : Low < 256) :
    ((High <<< 8) ||| Low) % 65536 = 256 * High + Low := by
  have h : 2 ^ 8 * High + Low = 2 ^ 8 * High ||| Low := Nat.mul_add_lt_is_or (by omega) High
  rw [Nat.shiftLeft_eq, Nat.mul_comm, ← h]
  omega

theorem FromUTF16Loop_eq (IsLittleEndian : Bool) (String : List Nat) :
    ∀ (Fuel Index : Nat) (Bytes : List Nat), String.length - Index ≤ Fuel →
      FromUTF16Loop IsLittleEndian String Fuel Index Bytes =
        Bytes ++ ((String.drop Index).map (UTF16UnitBytes IsLittleEndian)).flatten := by
  intro Fuel
  induction Fuel with
  | zero =>
    intro Index Bytes h
    have hdrop : String.drop Index = [] := List.drop_eq_nil_of_le (by omega)
    simp [FromUTF16Loop, hdrop]
  | succ Fuel ih =>
    intro Index Bytes h
    by_cases hlt : Index < String.length
    · simp only [FromUTF16Loop, hlt, if_true, low_byte_eq, high_byte_eq]
      rw [ih (Index + 1) _ (by omega), drop_eq_getD_cons 0 String Index hlt]
      cases IsLittleEndian <;> simp [UTF16UnitBytes]
    · have hdrop : String.drop Index = [] := List.drop_eq_nil_of_le (by omega)
      simp [FromUTF16Loop, hlt, hdrop]

theorem LuaValueFromUTF16_bytes (IsLittleEndian : Bool) (String : List Nat) :
    (LuaValueFromUTF16 IsLittleEndian String).ToBytes =
      (String.map (UTF16UnitBytes IsLittleEndian)).flatten := by
  simp [LuaValueFromUTF16, FLuaValue.ToBytes, FLuaValue.OfBytes,
    FromUTF16Loop_eq IsLittleEndian String String.length 0 [] (by omega)]

theorem UTF16UnitBytes_flatten_length (IsLittleEndian : Bool) (String : List Nat) :
    ((String.map (UTF16UnitBytes IsLittleEndian)).flatten).length = 2 * String.length := by
  induction String with
  | nil => simp
  | cons c Rest ih =>
    simp only [List.map_cons, List.flatten_cons, List.length_append, ih, List.length_cons]
    cases IsLittleEndian <;> simp [UTF16UnitBytes] <;> omega

/-- The decoding loop run on the bytes of an encoded text, from the position where the
encoding of `Rest` starts, appends `Rest` to the text built so far. -/
theorem ToUTF16Loop_encoded (IsLittleEndian : Bool) :
    ∀ (Rest Before : List Nat) (Fuel : Nat) (S : List Nat × List Nat),
      (∀ c ∈ Rest, c ≠ 0 ∧ c < 65536) → Rest.length ≤ Fuel →
      (ToUTF16Loop IsLittleEndian
          (Before ++ (Rest.map (UTF16UnitBytes IsLittleEndian)).flatten) Fuel Before.length S).1
        = S.1 ++ Rest := by
  intro Rest
  induction Rest with
  | nil =>
    intro Before Fuel S _ _
    cases Fuel <;> simp [ToUTF16Loop]
  | cons c Rest ih =>
    intro Before Fuel S hValid hFuel
    obtain ⟨f, rfl⟩ : ∃ f, Fuel = f + 1 := ⟨Fuel - 1, by simp at hFuel; omega⟩
    have hc := hValid c (List.mem_cons_self c Rest)
    have hRest : ∀ x ∈ Rest, x ≠ 0 ∧ x < 65536 :=
      fun x hx => hValid x (List.mem_cons_of_mem c hx)
    have hBytes : Before ++ ((c :: Rest).map (UTF16UnitBytes IsLittleEndian)).flatten =
        (Before ++ UTF16UnitBytes IsLittleEndian c) ++
          (Rest.map (UTF16UnitBytes IsLittleEndian)).flatten := by simp
    have hLen : (Before ++ UTF16UnitBytes IsLittleEndian c).length = Before.length + 2 := by
      cases IsLittleEndian <;> simp [UTF16UnitBytes]
    have hStep := ih (Before ++ UTF16UnitBytes IsLittleEndian c) f
      (AppendChar S.1 c, S.2 ++ [Before.length, Before.length + 1]) hRest
      (by simp at hFuel; omega)
    rw [hLen, ← hBytes] at hStep
    have hlt : Before.length <
        (Before ++ ((c :: Rest).map (UTF16UnitBytes IsLittleEndian)).flatten).length := by
      cases IsLittleEndian <;> simp [UTF16UnitBytes]
    have hFirst : (Before ++ ((c :: Rest).map (UTF16UnitBytes IsLittleEndian)).flatten).getD
        Before.length 0 = (UTF16UnitBytes IsLittleEndian c).getD 0 0 := by
      rw [List.getD_append_right _ _ _ _ (le_refl _)]
      cases IsLittleEndian <;> simp [UTF16UnitBytes]
    have hSecond : (Before ++ ((c :: Rest).map (UTF16UnitBytes IsLittleEndian)).flatten).getD
        (Before.length + 1) 0 = (UTF16UnitBytes IsLittleEndian c).getD 1 0 := by
      rw [List.getD_append_right _ _ _ _ (by omega)]
      cases IsLittleEndian <;> simp [UTF16UnitBytes]
    have hChar : c = 256 * (c % 65536 / 256) + c % 256 := by omega
    have hHigh : c % 65536 / 256 < 256 := by omega
    have hLow : c % 256 < 256 := by omega
    have hAppend : AppendChar S.1 c = S.1 ++ [c] := by simp [AppendChar, hc.1]
    unfold ToUTF16Loop
    simp only [hlt, if_true, hFirst, hSecond]
    cases IsLittleEndian
    · simp only [UTF16UnitBytes, Bool.false_eq_true, if_false, List.getD_cons_zero,
        List.getD_cons_succ, combine_bytes _ _ hHigh hLow, ← hChar] at hStep ⊢
      rw [hStep, hAppend]
      simp
    · simp only [UTF16UnitBytes, if_true, List.getD_cons_zero,
        List.getD_cons_succ, combine_bytes _ _ hHigh hLow, ← hChar] at hStep ⊢
      rw [hStep, hAppend]
      simp

/-- C5: encoding a text of non-zero 16-bit code units and decoding the result gives the
text back, in either byte order, and the encoded buffer has two bytes per code unit. -/
theorem LuaValueToUTF16_FromUTF16 (IsLittleEndian : Bool) (String : List Nat)
    (hValid : ∀ c ∈ String, c ≠ 0 ∧ c < 65536) :
    LuaValueToUTF16 IsLittleEndian (LuaValueFromUTF16 IsLittleEndian String) = String ∧
    (LuaValueFromUTF16 IsLittleEndian String).ToBytes.length = 2 * String.length := by
  have hLen : (LuaValueFromUTF16 IsLittleEndian String).ToBytes.length = 2 * String.length := by
    rw [LuaValueFromUTF16_bytes, UTF16UnitBytes_flatten_length]
  refine ⟨?_, hLen⟩
  have hEven : ¬ ((LuaValueFromUTF16 IsLittleEndian String).ToBytes.length % 2 ≠ 0) := by
    rw [hLen]; omega
  unfold LuaValueToUTF16 LuaValueToUTF16Run
  simp only [hEven, if_false]
  rw [hLen, LuaValueFromUTF16_bytes]
  have h := ToUTF16Loop_encoded IsLittleEndian String [] (2 * String.length) ([], []) hValid
    (by omega)
  simpa using h

/-- C5, witness: the text `H€` in both byte orders. -/
theorem LuaValueToUTF16_FromUTF16_witness :
    (LuaValueToUTF16 true (LuaValueFromUTF16 true [0x48, 0x20AC]) = [0x48, 0x20AC] ∧
      (LuaValueFromUTF16 true [0x48, 0x20AC]).ToBytes.length = 2 * [0x48, 0x20AC].length) ∧
    (LuaValueToUTF16 false (LuaValueFromUTF16 false [0x48, 0x20AC]) = [0x48, 0x20AC] ∧
      (LuaValueFromUTF16 false [0x48, 0x20AC]).ToBytes.length = 2 * [0x48, 0x20AC].length) :=
  ⟨LuaValueToUTF16_FromUTF16 true [0x48, 0x20AC] (by decide),
   LuaValueToUTF16_FromUTF16 false [0x48, 0x20AC] (by decide)⟩

/-- Every byte index the decoding loop reads lies inside a buffer of even length. -/
theorem ToUTF16Loop_reads (IsLittleEndian : Bool) (Bytes : List Nat)
    (hEven : Bytes.length % 2 = 0) :
    ∀ (Fuel Index : Nat) (S : List Nat × List Nat), Index % 2 = 0 →
      (∀ i ∈ S.2, i < Bytes.length) →
      ∀ i ∈ (ToUTF16Loop IsLittleEndian Bytes Fuel Index S).2, i < Bytes.length := by
  intro Fuel
  induction Fuel with
  | zero => intro Index S _ hS; simpa [ToUTF16Loop] using hS
  | succ Fuel ih =>
    intro Index S hIndex hS
    by_cases hlt : Index < Bytes.length
    · simp only [ToUTF16Loop, hlt, if_true]
      apply ih (Index + 2) _ (by omega)
      intro i hi
      simp only [List.mem_append, List.mem_cons, List.mem_singleton, List.not_mem_nil,
        or_false] at hi
      rcases hi with hi | hi | hi
      · exact hS i hi
      · omega
      · omega
    · simpa [ToUTF16Loop, hlt] using hS

/-- C8: for a buffer of odd length `LuaValueToUTF16` reads no byte and returns the empty
text; for every buffer, every byte index it reads lies inside the buffer. -/
theorem LuaValueToUTF16_odd_and_reads (IsLittleEndian : Bool) (Value : FLuaValue) :
    (Value.ToBytes.length % 2 = 1 →
      LuaValueToUTF16 IsLittleEndian Value = [] ∧
      (LuaValueToUTF16Run IsLittleEndian Value).2 = []) ∧
    (∀ i ∈ (LuaValueToUTF16Run IsLittleEndian Value).2, i < Value.ToBytes.length) := by
  refine ⟨?_, ?_⟩
  · intro hOdd
    have h : Value.ToBytes.length % 2 ≠ 0 := by omega
    simp [LuaValueToUTF16, LuaValueToUTF16Run, h]
  · by_cases hOdd : Value.ToBytes.length % 2 ≠ 0
    · simp [LuaValueToUTF16Run, hOdd]
    · simp only [LuaValueToUTF16Run, hOdd, if_false]
      exact ToUTF16Loop_reads IsLittleEndian Value.ToBytes (by omega) _ 0 ([], []) rfl
        (by simp)

/-- C8, witness: a buffer of three bytes. -/
theorem LuaValueToUTF16_odd_and_reads_witness :
    (FLuaValue.OfBytes [1, 2, 3]).ToBytes.length % 2 = 1 ∧
    LuaValueToUTF16 true (FLuaValue.OfBytes [1, 2, 3]) = [] ∧
    (LuaValueToUTF16Run true (FLuaValue.OfBytes [1, 2, 3])).2 = [] :=
  ⟨by decide,
   (LuaValueToUTF16_odd_and_reads true (FLuaValue.OfBytes [1, 2, 3])).1 (by decide)⟩

/-- C9, counterexample: the malformed one-byte buffer and the well-formed empty buffer
decode to the same result, in either byte order. -/
theorem LuaValueToUTF16_failure_not_distinguished :
    (FLuaValue.OfBytes [65]).ToBytes.length % 2 = 1 ∧
    (FLuaValue.OfBytes []).ToBytes.length % 2 = 0 ∧
    LuaValueToUTF16 true (FLuaValue.OfBytes [65]) = LuaValueToUTF16 true (FLuaValue.OfBytes []) ∧
    LuaValueToUTF16 false (FLuaValue.OfBytes [65])
      = LuaValueToUTF16 false (FLuaValue.OfBytes []) := by
  decide

/-- C9, as amended: for a buffer of odd length `LuaValueToUTF16` returns the empty text,
which is also what it returns for the empty buffer. -/
theorem LuaValueToUTF16_odd_is_empty_text (IsLittleEndian : Bool) (Value : FLuaValue)
    (hOdd : Value.ToBytes.length % 2 = 1) :
    LuaValueToUTF16 IsLittleEndian Value = [] ∧
    LuaValueToUTF16 IsLittleEndian (FLuaValue.OfBytes []) = [] ∧
    LuaValueToUTF16 IsLittleEndian Value
      = LuaValueToUTF16 IsLittleEndian (FLuaValue.OfBytes []) := by
  have h : Value.ToBytes.length % 2 ≠ 0 := by omega
  have hValue : LuaValueToUTF16 IsLittleEndian Value = [] := by
    simp [LuaValueToUTF16, LuaValueToUTF16Run, h]
  have hEmpty : LuaValueToUTF16 IsLittleEndian (FLuaValue.OfBytes []) = [] := by
    simp [LuaValueToUTF16, LuaValueToUTF16Run, FLuaValue.ToBytes, FLuaValue.OfBytes,
      ToUTF16Loop]
  exact ⟨hValue, hEmpty, by rw [hValue, hEmpty]⟩

/-- C9 as amended, witness: the one-byte buffer. -/
theorem LuaValueToUTF16_odd_is_empty_text_witness :
    (FLuaValue.OfBytes [65]).ToBytes.length % 2 = 1 ∧
    LuaValueToUTF16 true (FLuaValue.OfBytes [65]) = [] ∧
    LuaValueToUTF16 true (FLuaValue.OfBytes []) = [] ∧
    LuaValueToUTF16 true (FLuaValue.OfBytes [65])
      = LuaValueToUTF16 true (FLuaValue.OfBytes []) :=
  ⟨by decide, LuaValueToUTF16_odd_is_empty_text true (FLuaValue.OfBytes [65]) (by decide)⟩

/-! ## UTF-32 -/

/-- C6, at the failing input: the text `AB` is encoded to the two bytes `41 00`, the first
two of its eight UTF-32 bytes, and decoded to `A` (little-endian) or to the empty text
(big-endian). -/
theorem LuaValueToUTF32_FromUTF32_loses_text :
    LuaValueFromUTF32 25 true [0x41, 0x42] = FLuaValue.OfBytes [0x41, 0] ∧
    LuaValueToUTF32 25 true (LuaValueFromUTF32 25 true [0x41, 0x42]) = [0x41] ∧
    LuaValueFromUTF32 25 false [0x41, 0x42] = FLuaValue.OfBytes [0, 0] ∧
    LuaValueToUTF32 25 false (LuaValueFromUTF32 25 false [0x41, 0x42]) = [] := by
  decide

/-- C7, at the failing input: a buffer of one byte (little-endian) and a buffer of five
bytes (big-endian), neither a multiple of 4 long, both decode to the text `A`. -/
theorem LuaValueToUTF32_decodes_ragged_buffer :
    (FLuaValue.OfBytes [0x41]).ToBytes.length % 4 ≠ 0 ∧
    LuaValueToUTF32 25 true (FLuaValue.OfBytes [0x41]) = [0x41] ∧
    (FLuaValue.OfBytes [0, 0, 0, 0x41, 0]).ToBytes.length % 4 ≠ 0 ∧
    LuaValueToUTF32 25 false (FLuaValue.OfBytes [0, 0, 0, 0x41, 0]) = [0x41] := by
  decide

/-! ## Single-result call, call-if-not-nil, method-call sugar -/

/-- C11: on a live instance `LuaValueCall` pushes the value, then the arguments from left
to right, invokes the protected call for one result and pops exactly one slot; the
stack is the one before the call whether the call succeeded or failed; on failure the
returned value is Nil, on success it is the first result (Nil when there is none). -/
theorem LuaValueCall_balanced (Interp : Interpreter) (W : World) (Value : FLuaValue)
    (Args : List FLuaValue) (This : Nat) (L : ULuaState)
    (hRef : Value.LuaState = some This) (hLive : W This = some L) :
    World.TraceOf (LuaValueCall Interp W Value Args).2 This
      = L.Trace ++ [LuaOp.FromLuaValue Value] ++ Args.map LuaOp.FromLuaValue
          ++ [LuaOp.PCall Args.length 1] ++ [LuaOp.Pop 1] ∧
    (LuaValueCall Interp W Value Args).2 This
      = some { Stack := L.Stack, Trace := World.TraceOf (LuaValueCall Interp W Value Args).2 This } ∧
    World.Depth (LuaValueCall Interp W Value Args).2 This = L.Stack.length ∧
    (∀ Message, Interp (PushedValue This Value) (Args.map (PushedValue This))
        = PCallOutcome.Error Message →
      (LuaValueCall Interp W Value Args).1 = FLuaValue.Nil) ∧
    (∀ Results, Interp (PushedValue This Value) (Args.map (PushedValue This))
        = PCallOutcome.Success Results →
      (LuaValueCall Interp W Value Args).1 = Results.headD FLuaValue.Nil) := by
  rw [LuaValueCall_live Interp W Value Args This L hRef hLive]
  refine ⟨?_, ?_, ?_, ?_, ?_⟩
  · simp [World.TraceOf, CallOps]
  · simp [World.TraceOf, CallOps]
  · simp [World.Depth]
  · intro Message hI
    simp [hI]
  · intro Results hI
    simp [hI]

/-- C11, witness: the example function called with two arguments on the example instance
(depth 1 before and after, first result returned). -/
theorem LuaValueCall_balanced_witness :
    World.TraceOf (LuaValueCall ExampleInterpreter ExampleWorld (FLuaValue.FunctionRef 0 1)
        [FLuaValue.OfInteger 1, FLuaValue.OfInteger 2]).2 0
      = ExampleState.Trace ++ [LuaOp.FromLuaValue (FLuaValue.FunctionRef 0 1)]
          ++ [FLuaValue.OfInteger 1, FLuaValue.OfInteger 2].map LuaOp.FromLuaValue
          ++ [LuaOp.PCall [FLuaValue.OfInteger 1, FLuaValue.OfInteger 2].length 1]
          ++ [LuaOp.Pop 1] ∧
    World.Depth (LuaValueCall ExampleInterpreter ExampleWorld (FLuaValue.FunctionRef 0 1)
        [FLuaValue.OfInteger 1, FLuaValue.OfInteger 2]).2 0 = ExampleState.Stack.length ∧
    (LuaValueCall ExampleInterpreter ExampleWorld (FLuaValue.FunctionRef 0 1)
        [FLuaValue.OfInteger 1, FLuaValue.OfInteger 2]).1 = FLuaValue.OfInteger 1 :=
  have h := LuaValueCall_balanced ExampleInterpreter ExampleWorld (FLuaValue.FunctionRef 0 1)
    [FLuaValue.OfInteger 1, FLuaValue.OfInteger 2] 0 ExampleState rfl rfl
  ⟨h.1, h.2.2.1, h.2.2.2.2 [FLuaValue.OfInteger 1, FLuaValue.OfInteger 2, FLuaValue.OfInteger 7] rfl⟩

/-- C12: for a Nil value `LuaValueCallIfNotNil` returns Nil and leaves every instance as
it is; for any other value it is `LuaValueCall`. -/
theorem LuaValueCallIfNotNil_cases (Interp : Interpreter) (W : World) (Value : FLuaValue)
    (Args : List FLuaValue) :
    (Value.Type_ = ELuaValueType.Nil →
      LuaValueCallIfNotNil Interp W Value Args = (FLuaValue.Nil, W)) ∧
    (Value.Type_ ≠ ELuaValueType.Nil →
      LuaValueCallIfNotNil Interp W Value Args = LuaValueCall Interp W Value Args) := by
  refine ⟨?_, ?_⟩
  · intro h
    simp [LuaValueCallIfNotNil, h]
  · intro h
    simp [LuaValueCallIfNotNil, h]

/-- C12, witness: the Nil value, and the example function. -/
theorem LuaValueCallIfNotNil_cases_witness :
    LuaValueCallIfNotNil ExampleInterpreter ExampleWorld FLuaValue.Nil [FLuaValue.OfInteger 1]
      = (FLuaValue.Nil, ExampleWorld) ∧
    LuaValueCallIfNotNil ExampleInterpreter ExampleWorld (FLuaValue.FunctionRef 0 1)
        [FLuaValue.OfInteger 1]
      = LuaValueCall ExampleInterpreter ExampleWorld (FLuaValue.FunctionRef 0 1)
        [FLuaValue.OfInteger 1] :=
  ⟨(LuaValueCallIfNotNil_cases ExampleInterpreter ExampleWorld FLuaValue.Nil
      [FLuaValue.OfInteger 1]).1 rfl,
   (LuaValueCallIfNotNil_cases ExampleInterpreter ExampleWorld (FLuaValue.FunctionRef 0 1)
      [FLuaValue.OfInteger 1]).2 (by decide)⟩

/-- C13: for a Table of a live instance whose field at the key is not Nil,
`LuaTableKeyCallWithSelf` is `LuaValueCall` of the field on the table followed by the
arguments, and `LuaTableKeyCall` is `LuaValueCall` of the field on the arguments; when
the field is Nil both return Nil and leave every instance as it is. -/
theorem LuaTableKeyCall_sugar (Interp : Interpreter) (GetField : FieldByKey) (W : World)
    (InTable : FLuaValue) (Key : List Nat) (Args : List FLuaValue) (L : ULuaState)
    (hType : InTable.Type_ = ELuaValueType.Table)
    (hLive : W.Get InTable.LuaState = some L) :
    ((GetField InTable Key).Type_ ≠ ELuaValueType.Nil →
      LuaTableKeyCallWithSelf Interp GetField W InTable Key Args
        = LuaValueCall Interp W (GetField InTable Key) ([InTable] ++ Args) ∧
      LuaTableKeyCall Interp GetField W InTable Key Args
        = LuaValueCall Interp W (GetField InTable Key) Args) ∧
    ((GetField InTable Key).Type_ = ELuaValueType.Nil →
      LuaTableKeyCallWithSelf Interp GetField W InTable Key Args = (FLuaValue.Nil, W) ∧
      LuaTableKeyCall Interp GetField W InTable Key Args = (FLuaValue.Nil, W)) := by
  refine ⟨?_, ?_⟩
  · intro hField
    simp [LuaTableKeyCallWithSelf, LuaTableKeyCall, hType, hLive, hField]
  · intro hField
    simp [LuaTableKeyCallWithSelf, LuaTableKeyCall, hType, hLive, hField]

/-- C13, witness: the example table, whose field `f` is a function and whose field `z`
is Nil. -/
theorem LuaTableKeyCall_sugar_witness :
    (LuaTableKeyCallWithSelf ExampleInterpreter ExampleKeyFields ExampleWorld
        (FLuaValue.TableRef 0 1) [102] [FLuaValue.OfInteger 3]
      = LuaValueCall ExampleInterpreter ExampleWorld
          (ExampleKeyFields (FLuaValue.TableRef 0 1) [102])
          ([FLuaValue.TableRef 0 1] ++ [FLuaValue.OfInteger 3]) ∧
     LuaTableKeyCall ExampleInterpreter ExampleKeyFields ExampleWorld
        (FLuaValue.TableRef 0 1) [102] [FLuaValue.OfInteger 3]
      = LuaValueCall ExampleInterpreter ExampleWorld
          (ExampleKeyFields (FLuaValue.TableRef 0 1) [102]) [FLuaValue.OfInteger 3]) ∧
    (LuaTableKeyCallWithSelf ExampleInterpreter ExampleKeyFields ExampleWorld
        (FLuaValue.TableRef 0 1) [122] [FLuaValue.OfInteger 3] = (FLuaValue.Nil, ExampleWorld) ∧
     LuaTableKeyCall ExampleInterpreter ExampleKeyFields ExampleWorld
        (FLuaValue.TableRef 0 1) [122] [FLuaValue.OfInteger 3] = (FLuaValue.Nil, ExampleWorld)) :=
  ⟨(LuaTableKeyCall_sugar ExampleInterpreter ExampleKeyFields ExampleWorld
      (FLuaValue.TableRef 0 1) [102] [FLuaValue.OfInteger 3] ExampleState rfl rfl).1
      (by decide),
   (LuaTableKeyCall_sugar ExampleInterpreter ExampleKeyFields ExampleWorld
      (FLuaValue.TableRef 0 1) [122] [FLuaValue.OfInteger 3] ExampleState rfl rfl).2
      (by decide)⟩

/-! ## Keys and values -/

/-- The operations the traversal loop logs for `n` entries: one `Next` and one `Pop` per
entry, and the last `Next`, which returns false. -/
theorem TraverseLoop_chain (Traversal : TableTraversal) (Slot : Int)
    (Pick : FLuaValue × FLuaValue → FLuaValue) (Table : FLuaValue) (Base : List FLuaValue)
    (hPick : ∀ (Entry : FLuaValue × FLuaValue) (Rest : List FLuaValue) (T : List LuaOp),
      ({ Stack := Entry.2 :: Entry.1 :: Rest, Trace := T } : ULuaState).ToLuaValue Slot
        = Pick Entry) :
    ∀ (Entries : List (FLuaValue × FLuaValue)) (Key : FLuaValue) (Fuel : Nat)
      (Keys : List FLuaValue) (T : List LuaOp),
      NextChain Traversal Table Key Entries → Entries.length < Fuel →
      TraverseLoop Traversal Slot Fuel { Stack := Key :: Table :: Base, Trace := T } Keys =
        some (Keys ++ Entries.map Pick,
          { Stack := Table :: Base,
            Trace := T ++ (Entries.map (fun _ => [LuaOp.Next (-2), LuaOp.Pop 1])).flatten
              ++ [LuaOp.Next (-2)] }) := by
  intro Entries
  induction Entries with
  | nil =>
    intro Key Fuel Keys T hChain hFuel
    obtain ⟨f, rfl⟩ : ∃ f, Fuel = f + 1 := ⟨Fuel - 1, by simp at hFuel; omega⟩
    simp only [NextChain] at hChain
    simp [TraverseLoop, ULuaState.Next, ULuaState.ToLuaValue, hChain]
  | cons Entry Rest ih =>
    intro Key Fuel Keys T hChain hFuel
    obtain ⟨f, rfl⟩ : ∃ f, Fuel = f + 1 := ⟨Fuel - 1, by simp at hFuel; omega⟩
    simp only [NextChain] at hChain
    have hNext : ULuaState.Next Traversal { Stack := Key :: Table :: Base, Trace := T } (-2) =
        (true, { Stack := Entry.2 :: Entry.1 :: Table :: Base,
                 Trace := T ++ [LuaOp.Next (-2)] }) := by
      simp [ULuaState.Next, ULuaState.ToLuaValue, hChain.1]
    have hRec := ih Entry.1 f (Keys ++ [Pick Entry]) (T ++ [LuaOp.Next (-2)] ++ [LuaOp.Pop 1])
      hChain.2 (by simp at hFuel; omega)
    unfold TraverseLoop
    simp only [hNext, if_true, hPick, ULuaState.Pop]
    simp only [Int.toNat_one, List.drop_succ_cons, List.drop_zero]
    rw [hRec]
    simp

/-- The traversal loop of `LuaTableGetKeys` and `LuaTableGetValues` run on a live
instance: the picked slot of every entry in order, and the stack as before the call. -/
theorem TraverseLoop_from_table (Traversal : TableTraversal) (Slot : Int)
    (Pick : FLuaValue × FLuaValue → FLuaValue)
    (hPick : ∀ (Entry : FLuaValue × FLuaValue) (Rest : List FLuaValue) (T : List LuaOp),
      ({ Stack := Entry.2 :: Entry.1 :: Rest, Trace := T } : ULuaState).ToLuaValue Slot
        = Pick Entry)
    (Table : FLuaValue) (This : Nat) (L : ULuaState)
    (Entries : List (FLuaValue × FLuaValue)) (Fuel : Nat)
    (hType : Table.Type_ = ELuaValueType.Table) (hRef : Table.LuaState = some This)
    (hChain : NextChain Traversal Table FLuaValue.Nil Entries)
    (hFuel : Entries.length < Fuel) :
    TraverseLoop Traversal Slot Fuel (L.FromLuaValue This Table).PushNil [] =
      some (Entries.map Pick,
        { Stack := Table :: L.Stack,
          Trace := L.Trace ++ [LuaOp.FromLuaValue Table] ++ [LuaOp.PushNil]
            ++ (Entries.map (fun _ => [LuaOp.Next (-2), LuaOp.Pop 1])).flatten
            ++ [LuaOp.Next (-2)] }) := by
  have hPush : PushedValue This Table = Table := by
    simp [PushedValue, FLuaValue.IsSelfContained, hType, hRef]
  have h := TraverseLoop_chain Traversal Slot Pick Table L.Stack hPick Entries FLuaValue.Nil
    Fuel [] (L.Trace ++ [LuaOp.FromLuaValue Table] ++ [LuaOp.PushNil]) hChain hFuel
  simp only [ULuaState.FromLuaValue, ULuaState.PushNil, hPush]
  rw [h]
  simp

/-- C14: for a Table of a live instance whose traversal produces the entries `Entries` and
then ends, `LuaTableGetKeys` returns the keys and `LuaTableGetValues` the values, one
per entry in the order produced, as soon as `Next` may be called once more than there
are entries; both leave the stack of the instance as it was (the empty table, with no
entries, included). -/
theorem LuaTableGetKeys_GetValues_balanced (Traversal : TableTraversal) (W : World)
    (Table : FLuaValue) (This : Nat) (L : ULuaState)
    (Entries : List (FLuaValue × FLuaValue)) (Fuel : Nat)
    (hType : Table.Type_ = ELuaValueType.Table) (hRef : Table.LuaState = some This)
    (hLive : W This = some L)
    (hChain : NextChain Traversal Table FLuaValue.Nil Entries)
    (hFuel : Entries.length < Fuel) :
    (∃ WK, LuaTableGetKeys Traversal Fuel W Table = some (Entries.map Prod.fst, WK) ∧
      (WK This).map ULuaState.Stack = some L.Stack ∧
      World.Depth WK This = World.Depth W This) ∧
    (∃ WV, LuaTableGetValues Traversal Fuel W Table = some (Entries.map Prod.snd, WV) ∧
      (WV This).map ULuaState.Stack = some L.Stack ∧
      World.Depth WV This = World.Depth W This) := by
  have hDepth : World.Depth W This = L.Stack.length := by simp [World.Depth, hLive]
  refine ⟨?_, ?_⟩
  · have hLoop := TraverseLoop_from_table Traversal (-2) Prod.fst
      (by intro Entry Rest T; simp [ULuaState.ToLuaValue]) Table This L Entries Fuel
      hType hRef hChain hFuel
    have hRun : LuaTableGetKeys Traversal Fuel W Table = some (Entries.map Prod.fst,
        Function.update W This (some (ULuaState.Pop
          { Stack := Table :: L.Stack,
            Trace := L.Trace ++ [LuaOp.FromLuaValue Table] ++ [LuaOp.PushNil]
              ++ (Entries.map (fun _ => [LuaOp.Next (-2), LuaOp.Pop 1])).flatten
              ++ [LuaOp.Next (-2)] } 1))) := by
      simp only [LuaTableGetKeys, hType, ne_eq, not_true_eq_false, if_false, hRef, hLive, hLoop]
    refine ⟨_, hRun, ?_, ?_⟩
    · simp [ULuaState.Pop]
    · simp [World.Depth, ULuaState.Pop, hLive]
  · have hLoop := TraverseLoop_from_table Traversal (-1) Prod.snd
      (by intro Entry Rest T; simp [ULuaState.ToLuaValue]) Table This L Entries Fuel
      hType hRef hChain hFuel
    have hRun : LuaTableGetValues Traversal Fuel W Table = some (Entries.map Prod.snd,
        Function.update W This (some (ULuaState.Pop
          { Stack := Table :: L.Stack,
            Trace := L.Trace ++ [LuaOp.FromLuaValue Table] ++ [LuaOp.PushNil]
              ++ (Entries.map (fun _ => [LuaOp.Next (-2), LuaOp.Pop 1])).flatten
              ++ [LuaOp.Next (-2)] } 1))) := by
      simp only [LuaTableGetValues, hType, ne_eq, not_true_eq_false, if_false, hRef, hLive, hLoop]
    refine ⟨_, hRun, ?_, ?_⟩
    · simp [ULuaState.Pop]
    · simp [World.Depth, ULuaState.Pop, hLive]

/-- C14, witness: the example table `{x = 10, y = 20}` and the empty table. -/
theorem LuaTableGetKeys_GetValues_balanced_witness :
    ((∃ WK, LuaTableGetKeys ExampleTraversal 3 ExampleWorld (FLuaValue.TableRef 0 1)
        = some ([(FLuaValue.OfBytes [120], FLuaValue.OfInteger 10),
                 (FLuaValue.OfBytes [121], FLuaValue.OfInteger 20)].map Prod.fst, WK) ∧
      (WK 0).map ULuaState.Stack = some ExampleState.Stack ∧
      World.Depth WK 0 = World.Depth ExampleWorld 0) ∧
     (∃ WV, LuaTableGetValues ExampleTraversal 3 ExampleWorld (FLuaValue.TableRef 0 1)
        = some ([(FLuaValue.OfBytes [120], FLuaValue.OfInteger 10),
                 (FLuaValue.OfBytes [121], FLuaValue.OfInteger 20)].map Prod.snd, WV) ∧
      (WV 0).map ULuaState.Stack = some ExampleState.Stack ∧
      World.Depth WV 0 = World.Depth ExampleWorld 0)) ∧
    ((∃ WK, LuaTableGetKeys ExampleTraversal 1 ExampleWorld (FLuaValue.TableRef 0 5)
        = some (([] : List (FLuaValue × FLuaValue)).map Prod.fst, WK) ∧
      (WK 0).map ULuaState.Stack = some ExampleState.Stack ∧
      World.Depth WK 0 = World.Depth ExampleWorld 0) ∧
     (∃ WV, LuaTableGetValues ExampleTraversal 1 ExampleWorld (FLuaValue.TableRef 0 5)
        = some (([] : List (FLuaValue × FLuaValue)).map Prod.snd, WV) ∧
      (WV 0).map ULuaState.Stack = some ExampleState.Stack ∧
      World.Depth WV 0 = World.Depth ExampleWorld 0)) :=
  ⟨LuaTableGetKeys_GetValues_balanced ExampleTraversal ExampleWorld (FLuaValue.TableRef 0 1) 0
      ExampleState _ 3 rfl rfl rfl ⟨rfl, rfl, rfl⟩ (by decide),
   LuaTableGetKeys_GetValues_balanced ExampleTraversal ExampleWorld (FLuaValue.TableRef 0 5) 0
      ExampleState [] 1 rfl rfl rfl rfl (by decide)⟩

/-! ## Schemas -/

theorem ImplementsLoop_iff (GetField : FieldByKey) (Table : FLuaValue) :
    ∀ TableAsset : List (List Nat × FLuaValue),
      ImplementsLoop GetField Table TableAsset = true ↔
        ∀ Pair ∈ TableAsset, (GetField Table Pair.1).Type_ ≠ ELuaValueType.Nil ∧
          (GetField Table Pair.1).Type_ = Pair.2.Type_ := by
  intro TableAsset
  induction TableAsset with
  | nil => simp [ImplementsLoop]
  | cons Pair Rest ih =>
    by_cases hNil : (GetField Table Pair.1).Type_ = ELuaValueType.Nil
    · simp [ImplementsLoop, hNil]
    · by_cases hSame : (GetField Table Pair.1).Type_ = Pair.2.Type_
      · simp [ImplementsLoop, hNil, hSame, ih]
      · simp [ImplementsLoop, hNil, hSame]

/-- C15: for a Table of a live instance `LuaTableImplements` is true exactly when every
pair of the schema has, at its key, a field of the table that is not Nil and carries
the variant tag of the pair's value; only tags are compared. It is true for the empty
schema and false for a value that is no Table. -/
theorem LuaTableImplements_iff (GetField : FieldByKey) (W : World) (Table : FLuaValue)
    (TableAsset : List (List Nat × FLuaValue)) :
    (Table.Type_ = ELuaValueType.Table → (W.Get Table.LuaState).isSome →
      ((LuaTableImplements GetField W Table TableAsset = true ↔
        ∀ Pair ∈ TableAsset, (GetField Table Pair.1).Type_ ≠ ELuaValueType.Nil ∧
          (GetField Table Pair.1).Type_ = Pair.2.Type_) ∧
       LuaTableImplements GetField W Table [] = true)) ∧
    (Table.Type_ ≠ ELuaValueType.Table →
      LuaTableImplements GetField W Table TableAsset = false) := by
  refine ⟨?_, ?_⟩
  · intro hType hLive
    obtain ⟨L, hL⟩ := Option.isSome_iff_exists.mp hLive
    refine ⟨?_, ?_⟩
    · simp only [LuaTableImplements, hType, ne_eq, not_true_eq_false, if_false, hL]
      exact ImplementsLoop_iff GetField Table TableAsset
    · simp [LuaTableImplements, hType, hL, ImplementsLoop]
  · intro hType
    simp [LuaTableImplements, hType]

/-- C15, witness: the example table implements the schema `{x : Integer, f : Function}`
whatever the payloads of the schema, and an integer implements no schema. -/
theorem LuaTableImplements_iff_witness :
    ((LuaTableImplements ExampleKeyFields ExampleWorld (FLuaValue.TableRef 0 1)
          [([120], FLuaValue.OfInteger 0), ([102], FLuaValue.FunctionRef 3 3)] = true ↔
        ∀ Pair ∈ [([120], FLuaValue.OfInteger 0), ([102], FLuaValue.FunctionRef 3 3)],
          (ExampleKeyFields (FLuaValue.TableRef 0 1) Pair.1).Type_ ≠ ELuaValueType.Nil ∧
          (ExampleKeyFields (FLuaValue.TableRef 0 1) Pair.1).Type_ = Pair.2.Type_) ∧
      LuaTableImplements ExampleKeyFields ExampleWorld (FLuaValue.TableRef 0 1) [] = true) ∧
    LuaTableImplements ExampleKeyFields ExampleWorld (FLuaValue.TableRef 0 1)
        [([120], FLuaValue.OfInteger 0), ([102], FLuaValue.FunctionRef 3 3)] = true ∧
    LuaTableImplements ExampleKeyFields ExampleWorld (FLuaValue.OfInteger 5)
        [([120], FLuaValue.OfInteger 0)] = false :=
  ⟨(LuaTableImplements_iff ExampleKeyFields ExampleWorld (FLuaValue.TableRef 0 1)
      [([120], FLuaValue.OfInteger 0), ([102], FLuaValue.FunctionRef 3 3)]).1 rfl rfl,
   by decide,
   (LuaTableImplements_iff ExampleKeyFields ExampleWorld (FLuaValue.OfInteger 5)
      [([120], FLuaValue.OfInteger 0)]).2 (by decide)⟩

/-! ## Coroutines -/

/-- The stack a native resume works on once the thread and the arguments are pushed: the
resume sees the pushed thread and the pushed arguments in order, and what it leaves
lies above the thread's slot. -/
theorem Resume_after_push (Co : Resumer) (This : Nat) (L : ULuaState)
    (Value : FLuaValue) (Args : List FLuaValue) :
    ULuaState.Resume Co (PushArgs This (L.FromLuaValue This Value) Args).1
        (-1 - ((PushArgs This (L.FromLuaValue This Value) Args).2 : Int))
        (PushArgs This (L.FromLuaValue This Value) Args).2 =
      ((Co (PushedValue This Value) (Args.map (PushedValue This))).Status,
        { Stack := (Co (PushedValue This Value) (Args.map (PushedValue This))).Left.reverse
            ++ PushedValue This Value :: L.Stack,
          Trace := ResumeOps L Value Args }) := by
  rw [PushArgs_eq]
  have hlen : ((Args.map (PushedValue This)).reverse).length = Args.length := by simp
  have hneg : (-1 - (Args.length : Int)) < 0 := by omega
  have hidx : (-(-1 - (Args.length : Int)) - 1).toNat = Args.length := by omega
  have hthread : ULuaState.ToLuaValue
      ⟨(Args.map (PushedValue This)).reverse ++ (L.FromLuaValue This Value).Stack,
        (L.FromLuaValue This Value).Trace ++ Args.map LuaOp.FromLuaValue⟩
      (-1 - (Args.length : Int)) = PushedValue This Value := by
    simp only [ULuaState.ToLuaValue, hneg, if_true, hidx]
    rw [List.getD_append_right _ _ _ _ (by simp)]
    simp [ULuaState.FromLuaValue]
  have htake : (((Args.map (PushedValue This)).reverse ++
      (L.FromLuaValue This Value).Stack).take Args.length).reverse
        = Args.map (PushedValue This) := by
    rw [List.take_left' hlen]
    simp
  have hdrop : ((Args.map (PushedValue This)).reverse ++
      (L.FromLuaValue This Value).Stack).drop Args.length = PushedValue This Value :: L.Stack := by
    rw [List.drop_left' hlen]
    simp [ULuaState.FromLuaValue]
  simp only [ULuaState.Resume, hthread, htake, hdrop]
  simp [ULuaState.FromLuaValue, ResumeOps]

/-- What `LuaValueResumeMulti` does on a live instance, for every outcome of the native
resume: it returns the values the resume left above the thread's slot, bottom first,
and leaves the stack as it was before the call. -/
theorem LuaValueResumeMultiBody_eq (Co : Resumer) (This : Nat) (L : ULuaState)
    (Value : FLuaValue) (Args : List FLuaValue) :
    LuaValueResumeMultiBody Co This L Value Args =
      ((Co (PushedValue This Value) (Args.map (PushedValue This))).Left,
        { Stack := L.Stack,
          Trace := ResumeOps L Value Args ++
            (if (Co (PushedValue This Value) (Args.map (PushedValue This))).Left = [] then
              [LuaOp.Pop 1]
             else [LuaOp.Pop
               ((Co (PushedValue This Value) (Args.map (PushedValue This))).Left.length : Int),
               LuaOp.Pop 1]) }) := by
  unfold LuaValueResumeMultiBody
  simp only [Resume_after_push]
  generalize (Co (PushedValue This Value) (Args.map (PushedValue This))).Left = Left
  have hnum : ∀ T : List LuaOp,
      (({ Stack := Left.reverse ++ PushedValue This Value :: L.Stack, Trace := T } :
        ULuaState).GetTop - (L.FromLuaValue This Value).GetTop) = (Left.length : Int) := by
    intro T
    simp only [ULuaState.GetTop, ULuaState.FromLuaValue, List.length_append,
      List.length_reverse, List.length_cons]
    push_cast
    ring
  simp only [hnum]
  cases Left with
  | nil => simp [ULuaState.Pop]
  | cons r Rest =>
    have hpos : ((r :: Rest).length : Int) > 0 := by simp
    have hle : (r :: Rest).length ≤
        (({ Stack := (r :: Rest).reverse ++ PushedValue This Value :: L.Stack,
            Trace := ResumeOps L Value Args } : ULuaState)).Stack.length := by
      simp
    have hcollect := CollectResults_eq _ (r :: Rest).length hle (r :: Rest).length 0 [] (by simp)
    simp only [Nat.cast_zero, zero_add, Int.toNat_ofNat] at hcollect
    simp only [hpos, if_true, Int.toNat_ofNat]
    rw [hcollect]
    have hsplit : (r :: Rest).reverse ++ PushedValue This Value :: L.Stack
        = (r :: Rest).reverse ++ (PushedValue This Value :: L.Stack) := rfl
    have htake : List.take (r :: Rest).length
        ((r :: Rest).reverse ++ PushedValue This Value :: L.Stack) = (r :: Rest).reverse :=
      List.take_left' (by simp)
    have hdrop : List.drop (r :: Rest).length
        ((r :: Rest).reverse ++ PushedValue This Value :: L.Stack)
          = PushedValue This Value :: L.Stack :=
      List.drop_left' (by simp)
    simp only [ULuaState.Pop, Int.toNat_ofNat, htake, hdrop]
    simp

theorem LuaValueResumeMulti_live (Co : Resumer) (W : World) (Value : FLuaValue)
    (Args : List FLuaValue) (This : Nat) (L : ULuaState)
    (hType : Value.Type_ = ELuaValueType.Thread)
    (hRef : Value.LuaState = some This) (hLive : W This = some L) :
    LuaValueResumeMulti Co W Value Args =
      ((LuaValueResumeMultiBody Co This L Value Args).1,
        Function.update W This (some (LuaValueResumeMultiBody Co This L Value Args).2)) := by
  simp [LuaValueResumeMulti, hType, hRef, hLive]

/-- The status the native resume reports is not read by `LuaValueResumeMulti`: two native
resumes that leave the same values give the same result and the same instance,
whatever status they report. What reaches the caller is the values the resume left. -/
theorem LuaValueResumeMulti_of_left (Co1 Co2 : Resumer) (W : World)
    (Value : FLuaValue) (Args : List FLuaValue)
    (hLeft : ∀ Thread ResumeArgs, (Co1 Thread ResumeArgs).Left = (Co2 Thread ResumeArgs).Left) :
    LuaValueResumeMulti Co1 W Value Args = LuaValueResumeMulti Co2 W Value Args := by
  by_cases hType : Value.Type_ = ELuaValueType.Thread
  · cases hRef : Value.LuaState with
    | none => simp [LuaValueResumeMulti, hRef]
    | some This =>
      cases hLive : W This with
      | none => simp [LuaValueResumeMulti, hRef, hLive]
      | some L =>
        rw [LuaValueResumeMulti_live Co1 W Value Args This L hType hRef hLive,
          LuaValueResumeMulti_live Co2 W Value Args This L hType hRef hLive,
          LuaValueResumeMultiBody_eq, LuaValueResumeMultiBody_eq, hLeft]
  · simp [LuaValueResumeMulti, hType]

/-- C17: for a Thread of a live instance whose native resume leaves the values `Results`
above the thread's slot, `LuaValueResumeMulti` returns exactly `Results`, bottom first,
which is the order `LuaValueCallMulti` returns a callee's results in. -/
theorem LuaValueResumeMulti_returns_left (Co : Resumer) (W : World) (Value : FLuaValue)
    (Args : List FLuaValue) (This : Nat) (L : ULuaState) (Results : List FLuaValue)
    (hType : Value.Type_ = ELuaValueType.Thread)
    (hRef : Value.LuaState = some This) (hLive : W This = some L)
    (hLeft : (Co Value (Args.map (PushedValue This))).Left = Results) :
    (LuaValueResumeMulti Co W Value Args).1 = Results ∧
    (∀ Interp : Interpreter, ∀ Callee : FLuaValue,
      Callee.Type_ = ELuaValueType.Function → Callee.LuaState = some This →
      Interp Callee (Args.map (PushedValue This)) = PCallOutcome.Success Results →
      (LuaValueCallMulti Interp W Callee Args).1 = (LuaValueResumeMulti Co W Value Args).1) := by
  have hPush : PushedValue This Value = Value := by
    simp [PushedValue, FLuaValue.IsSelfContained, hType, hRef]
  have hRun : (LuaValueResumeMulti Co W Value Args).1 = Results := by
    rw [LuaValueResumeMulti_live Co W Value Args This L hType hRef hLive,
      LuaValueResumeMultiBody_eq, hPush, hLeft]
  refine ⟨hRun, ?_⟩
  intro Interp Callee hFun hCRef hCall
  have hCPush : PushedValue This Callee = Callee := by
    simp [PushedValue, FLuaValue.IsSelfContained, hFun, hCRef]
  rw [← hCPush] at hCall
  rw [hRun, LuaValueCallMulti_live Interp W Callee Args This L hCRef hLive,
    LuaValueCallMultiBody_success Interp This L Callee Args Results hCall]

/-- C17, witness: the example thread resumed with two arguments leaves three values. -/
theorem LuaValueResumeMulti_returns_left_witness :
    (LuaValueResumeMulti ExampleResumer ExampleWorld (FLuaValue.ThreadRef 0 5)
        [FLuaValue.OfInteger 1, FLuaValue.OfInteger 2]).1
      = [FLuaValue.OfInteger 1, FLuaValue.OfInteger 2, FLuaValue.OfInteger 7] ∧
    (LuaValueCallMulti ExampleInterpreter ExampleWorld (FLuaValue.FunctionRef 0 1)
        [FLuaValue.OfInteger 1, FLuaValue.OfInteger 2]).1
      = (LuaValueResumeMulti ExampleResumer ExampleWorld (FLuaValue.ThreadRef 0 5)
        [FLuaValue.OfInteger 1, FLuaValue.OfInteger 2]).1 :=
  have h := LuaValueResumeMulti_returns_left ExampleResumer ExampleWorld
    (FLuaValue.ThreadRef 0 5) [FLuaValue.OfInteger 1, FLuaValue.OfInteger 2] 0 ExampleState
    [FLuaValue.OfInteger 1, FLuaValue.OfInteger 2, FLuaValue.OfInteger 7] rfl rfl rfl rfl
  ⟨h.1, h.2 ExampleInterpreter (FLuaValue.FunctionRef 0 1) rfl rfl rfl⟩

/-- C18: for a Thread of a live instance, every argument list and every outcome of the
native resume (any status, any number of values left above the thread's slot),
`LuaValueResumeMulti` leaves the stack of the instance as it was before the call. -/
theorem LuaValueResumeMulti_balanced (Co : Resumer) (W : World) (Value : FLuaValue)
    (Args : List FLuaValue) (This : Nat) (L : ULuaState)
    (hType : Value.Type_ = ELuaValueType.Thread)
    (hRef : Value.LuaState = some This) (hLive : W This = some L) :
    ((LuaValueResumeMulti Co W Value Args).2 This).map ULuaState.Stack = some L.Stack ∧
    World.Depth (LuaValueResumeMulti Co W Value Args).2 This = World.Depth W This := by
  rw [LuaValueResumeMulti_live Co W Value Args This L hType hRef hLive,
    LuaValueResumeMultiBody_eq]
  simp [World.Depth, hLive]

/-- C18, witness: the thread whose resume reports failure and leaves nothing, the thread
whose resume reports failure and leaves one value, and the thread that leaves three
values. -/
theorem LuaValueResumeMulti_balanced_witness :
    World.Depth (LuaValueResumeMulti ExampleResumer ExampleWorld (FLuaValue.ThreadRef 0 0)
        [FLuaValue.OfInteger 1]).2 0 = World.Depth ExampleWorld 0 ∧
    World.Depth (LuaValueResumeMulti ExampleResumer ExampleWorld (FLuaValue.ThreadRef 0 1)
        []).2 0 = World.Depth ExampleWorld 0 ∧
    World.Depth (LuaValueResumeMulti ExampleResumer ExampleWorld (FLuaValue.ThreadRef 0 5)
        [FLuaValue.OfInteger 1, FLuaValue.OfInteger 2]).2 0 = World.Depth ExampleWorld 0 :=
  ⟨(LuaValueResumeMulti_balanced ExampleResumer ExampleWorld (FLuaValue.ThreadRef 0 0)
      [FLuaValue.OfInteger 1] 0 ExampleState rfl rfl rfl).2,
   (LuaValueResumeMulti_balanced ExampleResumer ExampleWorld (FLuaValue.ThreadRef 0 1)
      [] 0 ExampleState rfl rfl rfl).2,
   (LuaValueResumeMulti_balanced ExampleResumer ExampleWorld (FLuaValue.ThreadRef 0 5)
      [FLuaValue.OfInteger 1, FLuaValue.OfInteger 2] 0 ExampleState rfl rfl rfl).2⟩

/-! ## Wrong variant, dead instance -/

/-- C19: handed a value that is no Table, the table operations return Nil, the empty
array or false and leave every instance as it is, whatever the tables hold; handed a
value that is no Thread, `LuaValueResumeMulti` returns the empty array and
`LuaValueYield` does nothing. -/
theorem wrong_variant_fails_soft (Interp : Interpreter) (GetField : FieldByKey)
    (GetFieldByIndex : FieldByIndex) (SetFieldByIndex : IndexSetter) (SetField : KeySetter)
    (SetMetaTable : MetaTableSetter) (Traversal : TableTraversal) (Co : Resumer)
    (W : World) (V Other Value : FLuaValue) (Index First Last : Int) (Key : List Nat)
    (Args : List FLuaValue) (Fuel : Nat) (TableAsset : List (List Nat × FLuaValue)) :
    (V.Type_ ≠ ELuaValueType.Table →
      LuaTableGetByIndex GetFieldByIndex W V Index = FLuaValue.Nil ∧
      LuaTableSetByIndex SetFieldByIndex W V Index Value = (FLuaValue.Nil, W) ∧
      LuaTableSetField SetField W V Key Value = (FLuaValue.Nil, W) ∧
      LuaTableSetMetaTable SetMetaTable W V Other = (FLuaValue.Nil, W) ∧
      LuaTableSetMetaTable SetMetaTable W Other V = (FLuaValue.Nil, W) ∧
      LuaTableKeyCall Interp GetField W V Key Args = (FLuaValue.Nil, W) ∧
      LuaTableKeyCallWithSelf Interp GetField W V Key Args = (FLuaValue.Nil, W) ∧
      LuaTableIndexCall Interp GetFieldByIndex W V Index Args = (FLuaValue.Nil, W) ∧
      LuaTableUnpack GetFieldByIndex Fuel V = some [] ∧
      LuaTableMergeUnpack GetFieldByIndex Fuel V Other = some [] ∧
      LuaTableMergeUnpack GetFieldByIndex Fuel Other V = some [] ∧
      LuaTableRange GetFieldByIndex Fuel V First Last = some [] ∧
      LuaTableGetKeys Traversal Fuel W V = some ([], W) ∧
      LuaTableGetValues Traversal Fuel W V = some ([], W) ∧
      LuaTableImplements GetField W V TableAsset = false) ∧
    (V.Type_ ≠ ELuaValueType.Thread →
      LuaValueResumeMulti Co W V Args = ([], W) ∧
      LuaValueYield Co W V Args = W) := by
  refine ⟨?_, ?_⟩
  · intro hType
    refine ⟨?_, ?_, ?_, ?_, ?_, ?_, ?_, ?_, ?_, ?_, ?_, ?_, ?_, ?_, ?_⟩
    · simp [LuaTableGetByIndex, hType]
    · simp [LuaTableSetByIndex, hType]
    · simp [LuaTableSetField, hType]
    · simp [LuaTableSetMetaTable, hType]
    · simp [LuaTableSetMetaTable, hType]
    · simp [LuaTableKeyCall, hType]
    · simp [LuaTableKeyCallWithSelf, hType]
    · simp [LuaTableIndexCall, hType]
    · simp [LuaTableUnpack, hType]
    · simp [LuaTableMergeUnpack, hType]
    · by_cases hOther : Other.Type_ = ELuaValueType.Table
      · simp [LuaTableMergeUnpack, hType, hOther]
      · simp [LuaTableMergeUnpack, hOther]
    · simp [LuaTableRange, hType]
    · simp [LuaTableGetKeys, hType]
    · simp [LuaTableGetValues, hType]
    · simp [LuaTableImplements, hType]
  · intro hType
    refine ⟨?_, ?_⟩
    · simp [LuaValueResumeMulti, hType]
    · simp [LuaValueYield, hType]

/-- C19, witness: an integer handed to every operation, on the example instance. -/
theorem wrong_variant_fails_soft_witness :
    (LuaTableGetByIndex ExampleFields ExampleWorld (FLuaValue.OfInteger 5) 1 = FLuaValue.Nil ∧
      LuaTableSetByIndex ExampleIndexSetter ExampleWorld (FLuaValue.OfInteger 5) 1
        (FLuaValue.OfInteger 6) = (FLuaValue.Nil, ExampleWorld) ∧
      LuaTableSetField ExampleKeySetter ExampleWorld (FLuaValue.OfInteger 5) [120]
        (FLuaValue.OfInteger 6) = (FLuaValue.Nil, ExampleWorld) ∧
      LuaTableSetMetaTable ExampleMetaTableSetter ExampleWorld (FLuaValue.OfInteger 5)
        (FLuaValue.TableRef 0 1) = (FLuaValue.Nil, ExampleWorld) ∧
      LuaTableSetMetaTable ExampleMetaTableSetter ExampleWorld (FLuaValue.TableRef 0 1)
        (FLuaValue.OfInteger 5) = (FLuaValue.Nil, ExampleWorld) ∧
      LuaTableKeyCall ExampleInterpreter ExampleKeyFields ExampleWorld (FLuaValue.OfInteger 5)
        [120] [] = (FLuaValue.Nil, ExampleWorld) ∧
      LuaTableKeyCallWithSelf ExampleInterpreter ExampleKeyFields ExampleWorld
        (FLuaValue.OfInteger 5) [120] [] = (FLuaValue.Nil, ExampleWorld) ∧
      LuaTableIndexCall ExampleInterpreter ExampleFields ExampleWorld (FLuaValue.OfInteger 5)
        1 [] = (FLuaValue.Nil, ExampleWorld) ∧
      LuaTableUnpack ExampleFields 0 (FLuaValue.OfInteger 5) = some [] ∧
      LuaTableMergeUnpack ExampleFields 0 (FLuaValue.OfInteger 5) (FLuaValue.TableRef 0 1)
        = some [] ∧
      LuaTableMergeUnpack ExampleFields 0 (FLuaValue.TableRef 0 1) (FLuaValue.OfInteger 5)
        = some [] ∧
      LuaTableRange ExampleFields 0 (FLuaValue.OfInteger 5) 1 4 = some [] ∧
      LuaTableGetKeys ExampleTraversal 0 ExampleWorld (FLuaValue.OfInteger 5)
        = some ([], ExampleWorld) ∧
      LuaTableGetValues ExampleTraversal 0 ExampleWorld (FLuaValue.OfInteger 5)
        = some ([], ExampleWorld) ∧
      LuaTableImplements ExampleKeyFields ExampleWorld (FLuaValue.OfInteger 5) [] = false) ∧
    (LuaValueResumeMulti ExampleResumer ExampleWorld (FLuaValue.OfInteger 5) []
        = ([], ExampleWorld) ∧
      LuaValueYield ExampleResumer ExampleWorld (FLuaValue.OfInteger 5) [] = ExampleWorld) :=
  have h := wrong_variant_fails_soft ExampleInterpreter ExampleKeyFields ExampleFields
    ExampleIndexSetter ExampleKeySetter ExampleMetaTableSetter ExampleTraversal ExampleResumer
    ExampleWorld (FLuaValue.OfInteger 5) (FLuaValue.TableRef 0 1) (FLuaValue.OfInteger 6)
    1 1 4 [120] [] 0 []
  ⟨h.1 (by decide), h.2 (by decide)⟩

/-- C20: for a value whose instance reference is absent or refers to an instance that is
gone, each operation returns its failure value (Nil, the empty array, false, 0,
`Invalid`, the smallest `int32`) and leaves every instance as it is. -/
theorem dead_instance_fails (Interp : Interpreter) (GetField : FieldByKey)
    (GetFieldByIndex : FieldByIndex) (SetFieldByIndex : IndexSetter) (SetField : KeySetter)
    (SetMetaTable : MetaTableSetter) (Traversal : TableTraversal) (Co : Resumer)
    (LengthOf : LengthOperator)
    (GetLuaThreadStatus : ULuaState → FLuaValue → ELuaThreadStatus)
    (GetLuaThreadStackTop : ULuaState → FLuaValue → Int)
    (W : World) (V Other Value : FLuaValue) (Index : Int) (Key : List Nat)
    (Args : List FLuaValue) (Fuel : Nat) (TableAsset : List (List Nat × FLuaValue))
    (hDead : W.Get V.LuaState = none) :
    LuaValueCall Interp W V Args = (FLuaValue.Nil, W) ∧
    LuaValueCallMulti Interp W V Args = ([], W) ∧
    LuaValueYield Co W V Args = W ∧
    LuaValueResumeMulti Co W V Args = ([], W) ∧
    LuaValueLength LengthOf W V = (0, W) ∧
    LuaTableGetField GetField W V Key = FLuaValue.Nil ∧
    LuaTableGetByIndex GetFieldByIndex W V Index = FLuaValue.Nil ∧
    LuaTableSetField SetField W V Key Value = (FLuaValue.Nil, W) ∧
    LuaTableSetByIndex SetFieldByIndex W V Index Value = (FLuaValue.Nil, W) ∧
    LuaTableSetMetaTable SetMetaTable W V Other = (FLuaValue.Nil, W) ∧
    LuaTableGetKeys Traversal Fuel W V = some ([], W) ∧
    LuaTableGetValues Traversal Fuel W V = some ([], W) ∧
    LuaTableImplements GetField W V TableAsset = false ∧
    LuaThreadGetStatus GetLuaThreadStatus W V = ELuaThreadStatus.Invalid ∧
    LuaThreadGetStackTop GetLuaThreadStackTop W V = MIN_int32 := by
  have hMatch : ∀ This, V.LuaState = some This → W This = none := by
    intro This hRef
    simpa [World.Get, hRef] using hDead
  refine ⟨?_, ?_, ?_, ?_, ?_, ?_, ?_, ?_, ?_, ?_, ?_, ?_, ?_, ?_, ?_⟩
  · cases hRef : V.LuaState with
    | none => simp [LuaValueCall, hRef]
    | some This => simp [LuaValueCall, hRef, hMatch This hRef]
  · cases hRef : V.LuaState with
    | none => simp [LuaValueCallMulti, hRef]
    | some This => simp [LuaValueCallMulti, hRef, hMatch This hRef]
  · cases hRef : V.LuaState with
    | none => simp [LuaValueYield, hRef]
    | some This => simp [LuaValueYield, hRef, hMatch This hRef]
  · cases hRef : V.LuaState with
    | none => simp [LuaValueResumeMulti, hRef]
    | some This => simp [LuaValueResumeMulti, hRef, hMatch This hRef]
  · cases hRef : V.LuaState with
    | none => simp [LuaValueLength, hRef]
    | some This => simp [LuaValueLength, hRef, hMatch This hRef]
  · simp [LuaTableGetField, hDead]
  · simp [LuaTableGetByIndex, hDead]
  · simp [LuaTableSetField, hDead]
  · simp [LuaTableSetByIndex, hDead]
  · simp [LuaTableSetMetaTable, hDead]
  · cases hRef : V.LuaState with
    | none => simp [LuaTableGetKeys, hRef]
    | some This => simp [LuaTableGetKeys, hRef, hMatch This hRef]
  · cases hRef : V.LuaState with
    | none => simp [LuaTableGetValues, hRef]
    | some This => simp [LuaTableGetValues, hRef, hMatch This hRef]
  · simp [LuaTableImplements, hDead]
  · simp [LuaThreadGetStatus, hDead]
  · simp [LuaThreadGetStackTop, hDead]

/-- C20, witness: a table whose instance 7 is gone. -/
theorem dead_instance_fails_witness :
    World.Get ExampleWorld (FLuaValue.TableRef 7 1).LuaState = none ∧
    LuaValueCall ExampleInterpreter ExampleWorld (FLuaValue.TableRef 7 1) []
      = (FLuaValue.Nil, ExampleWorld) ∧
    LuaValueCallMulti ExampleInterpreter ExampleWorld (FLuaValue.TableRef 7 1) []
      = ([], ExampleWorld) ∧
    LuaValueYield ExampleResumer ExampleWorld (FLuaValue.TableRef 7 1) [] = ExampleWorld ∧
    LuaValueResumeMulti ExampleResumer ExampleWorld (FLuaValue.TableRef 7 1) []
      = ([], ExampleWorld) ∧
    LuaValueLength ExampleLength ExampleWorld (FLuaValue.TableRef 7 1) = (0, ExampleWorld) ∧
    LuaTableGetField ExampleKeyFields ExampleWorld (FLuaValue.TableRef 7 1) [120]
      = FLuaValue.Nil ∧
    LuaTableGetByIndex ExampleFields ExampleWorld (FLuaValue.TableRef 7 1) 1 = FLuaValue.Nil ∧
    LuaTableSetField ExampleKeySetter ExampleWorld (FLuaValue.TableRef 7 1) [120]
      (FLuaValue.OfInteger 6) = (FLuaValue.Nil, ExampleWorld) ∧
    LuaTableSetByIndex ExampleIndexSetter ExampleWorld (FLuaValue.TableRef 7 1) 1
      (FLuaValue.OfInteger 6) = (FLuaValue.Nil, ExampleWorld) ∧
    LuaTableSetMetaTable ExampleMetaTableSetter ExampleWorld (FLuaValue.TableRef 7 1)
      (FLuaValue.TableRef 0 1) = (FLuaValue.Nil, ExampleWorld) ∧
    LuaTableGetKeys ExampleTraversal 3 ExampleWorld (FLuaValue.TableRef 7 1)
      = some ([], ExampleWorld) ∧
    LuaTableGetValues ExampleTraversal 3 ExampleWorld (FLuaValue.TableRef 7 1)
      = some ([], ExampleWorld) ∧
    LuaTableImplements ExampleKeyFields ExampleWorld (FLuaValue.TableRef 7 1) [] = false ∧
    LuaThreadGetStatus ExampleThreadStatus ExampleWorld (FLuaValue.TableRef 7 1)
      = ELuaThreadStatus.Invalid ∧
    LuaThreadGetStackTop ExampleThreadStackTop ExampleWorld (FLuaValue.TableRef 7 1)
      = MIN_int32 :=
  ⟨rfl, dead_instance_fails ExampleInterpreter ExampleKeyFields ExampleFields
    ExampleIndexSetter ExampleKeySetter ExampleMetaTableSetter ExampleTraversal ExampleResumer
    ExampleLength ExampleThreadStatus ExampleThreadStackTop ExampleWorld
    (FLuaValue.TableRef 7 1) (FLuaValue.TableRef 0 1) (FLuaValue.OfInteger 6) 1 [120] [] 3 []
    rfl⟩

/-! ## JSON -/

/-- The text `LuaValueToJson` returns is the text the serializer wrote for the JSON value
of its argument; the flag the serializer returns is not read. -/
theorem LuaValueToJson_eq_written {FJsonValue : Type}
    (ToJsonValue : FLuaValue → FJsonValue) (Serialize : FJsonValue → Bool × List Nat)
    (Value : FLuaValue) :
    LuaValueToJson ToJsonValue Serialize Value = (Serialize (ToJsonValue Value)).2 :=
  rfl

theorem SubCategory_fold (E : ELuaSubCategoryObjectType) :
    ∀ n : Nat,
      (List.range n).foldl (fun Objects iEnum => Objects ++ [SubCategoryObjectFor E iEnum]) []
        = (List.range n).map (SubCategoryObjectFor E) := by
  intro n
  induction n with
  | zero => simp
  | succ n ih => simp [List.range_succ, List.foldl_append, ih]

theorem InitializeLuaSubCategoryObjects_empty (E : ELuaSubCategoryObjectType) :
    InitializeLuaSubCategoryObjects E [] = (List.range E.MAX).map (SubCategoryObjectFor E) := by
  unfold InitializeLuaSubCategoryObjects
  by_cases h : ([] : List (Option UObjectRef)).length < E.MAX
  · simp only [h, if_true, SubCategory_fold]
  · have h0 : E.MAX = 0 := by simpa using h
    simp [h0]

/-- C22: the first call of `InitializeLuaSubCategoryObjects` (on the empty array) leaves
exactly `MAX` entries, the entry of the Table enumerator being the dynamic-value struct,
the entry of the Vector enumerator the vector struct and every other entry null; a
later call leaves the array unchanged; and the lookup for the variant Table and an
enumerator below `MAX` reads inside the array and returns that entry. -/
theorem InitializeLuaSubCategoryObjects_once (E : ELuaSubCategoryObjectType) :
    (InitializeLuaSubCategoryObjects E []).length = E.MAX ∧
    (∀ iEnum, iEnum < E.MAX →
      (InitializeLuaSubCategoryObjects E [])[iEnum]? =
        some (if iEnum = E.Table then some UObjectRef.LuaValueStruct
              else if iEnum = E.Vector then some UObjectRef.VectorStruct
              else none)) ∧
    InitializeLuaSubCategoryObjects E (InitializeLuaSubCategoryObjects E [])
      = InitializeLuaSubCategoryObjects E [] ∧
    (∀ Tag, Tag < E.MAX →
      (ObjectTypeFromLuaSubCategoryObjectType E [] ELuaValueType.Table Tag).1
        = some (SubCategoryObjectFor E Tag) ∧
      (ObjectTypeFromLuaSubCategoryObjectType E (InitializeLuaSubCategoryObjects E [])
          ELuaValueType.Table Tag).1 = some (SubCategoryObjectFor E Tag) ∧
      (ObjectTypeFromLuaSubCategoryObjectType E (InitializeLuaSubCategoryObjects E [])
          ELuaValueType.Table Tag).2 = InitializeLuaSubCategoryObjects E []) := by
  have hLen : (InitializeLuaSubCategoryObjects E []).length = E.MAX := by
    rw [InitializeLuaSubCategoryObjects_empty]; simp
  have hAgain : InitializeLuaSubCategoryObjects E (InitializeLuaSubCategoryObjects E [])
      = InitializeLuaSubCategoryObjects E [] := by
    generalize hS : InitializeLuaSubCategoryObjects E [] = S at hLen
    unfold InitializeLuaSubCategoryObjects
    simp [hLen]
  have hGet : ∀ iEnum, iEnum < E.MAX →
      (InitializeLuaSubCategoryObjects E [])[iEnum]? = some (SubCategoryObjectFor E iEnum) := by
    intro iEnum h
    rw [InitializeLuaSubCategoryObjects_empty]
    simp [h]
  refine ⟨hLen, ?_, hAgain, ?_⟩
  · intro iEnum h
    rw [hGet iEnum h]
    rfl
  · intro Tag h
    refine ⟨?_, ?_, ?_⟩
    · simp only [ObjectTypeFromLuaSubCategoryObjectType, hGet Tag h]
    · simp only [ObjectTypeFromLuaSubCategoryObjectType, hAgain, hGet Tag h]
    · simp only [ObjectTypeFromLuaSubCategoryObjectType, hAgain]

/-- C22, witness: the example enumeration with `MAX = 4`. -/
theorem InitializeLuaSubCategoryObjects_once_witness :
    InitializeLuaSubCategoryObjects ExampleSubCategories []
      = [none, some UObjectRef.LuaValueStruct, some UObjectRef.VectorStruct, none] ∧
    (InitializeLuaSubCategoryObjects ExampleSubCategories [])[2]? =
      some (if 2 = ExampleSubCategories.Table then some UObjectRef.LuaValueStruct
            else if 2 = ExampleSubCategories.Vector then some UObjectRef.VectorStruct
            else none) ∧
    ((ObjectTypeFromLuaSubCategoryObjectType ExampleSubCategories [] ELuaValueType.Table 3).1
        = some (SubCategoryObjectFor ExampleSubCategories 3) ∧
      (ObjectTypeFromLuaSubCategoryObjectType ExampleSubCategories
          (InitializeLuaSubCategoryObjects ExampleSubCategories []) ELuaValueType.Table 3).1
        = some (SubCategoryObjectFor ExampleSubCategories 3) ∧
      (ObjectTypeFromLuaSubCategoryObjectType ExampleSubCategories
          (InitializeLuaSubCategoryObjects ExampleSubCategories []) ELuaValueType.Table 3).2
        = InitializeLuaSubCategoryObjects ExampleSubCategories []) :=
  have h := InitializeLuaSubCategoryObjects_once ExampleSubCategories
  ⟨by decide, h.2.1 2 (by decide), h.2.2.2 3 (by decide)⟩

/-! ## Pin categories -/

/-- C23: when the seven pin-category names are pairwise distinct, converting a variant to
its pin category and back gives the variant for Nil, Bool, Integer, Number, String,
UObject and Table, and Table for every other variant; a name outside the seven is
converted to Table. -/
theorem PinCategory_round_trip (K2 : UEdGraphSchema_K2) (hDistinct : K2.Names.Nodup) :
    (∀ Type_ : ELuaValueType,
      PinCategoryToLuaValueType K2 (LuaValueTypeToPinCategory K2 Type_) =
        match Type_ with
        | ELuaValueType.Nil => ELuaValueType.Nil
        | ELuaValueType.Bool => ELuaValueType.Bool
        | ELuaValueType.Integer => ELuaValueType.Integer
        | ELuaValueType.Number => ELuaValueType.Number
        | ELuaValueType.String => ELuaValueType.String
        | ELuaValueType.UObject => ELuaValueType.UObject
        | ELuaValueType.Table => ELuaValueType.Table
        | _ => ELuaValueType.Table) ∧
    (∀ PinCategory : FName, PinCategory ∉ K2.Names →
      PinCategoryToLuaValueType K2 PinCategory = ELuaValueType.Table) := by
  simp only [UEdGraphSchema_K2.Names, List.nodup_cons, List.mem_cons, List.mem_singleton,
    List.not_mem_nil, or_false, not_or, List.nodup_nil, and_true] at hDistinct
  obtain ⟨⟨hWB, hWI, hWR, hWS, hWO, hWT⟩, ⟨hBI, hBR, hBS, hBO, hBT⟩, ⟨hIR, hIS, hIO, hIT⟩,
    ⟨hRS, hRO, hRT⟩, ⟨hSO, hST⟩, hOT, _⟩ := hDistinct
  refine ⟨?_, ?_⟩
  · intro Type_
    cases Type_ <;>
      simp [PinCategoryToLuaValueType, LuaValueTypeToPinCategory, Ne.symm hWB, Ne.symm hWI,
        Ne.symm hWR, Ne.symm hWS, Ne.symm hWO, Ne.symm hWT, Ne.symm hBI, Ne.symm hBR,
        Ne.symm hBS, Ne.symm hBO, Ne.symm hBT, Ne.symm hIR, Ne.symm hIS, Ne.symm hIO,
        Ne.symm hIT, Ne.symm hRS, Ne.symm hRO, Ne.symm hRT, Ne.symm hSO, Ne.symm hST,
        Ne.symm hOT]
  · intro PinCategory hOut
    simp only [UEdGraphSchema_K2.Names, List.mem_cons, List.mem_singleton, List.not_mem_nil,
      or_false, not_or] at hOut
    simp [PinCategoryToLuaValueType, hOut]

/-- C23, witness: the example names; Function goes to `struct` and comes back as Table. -/
theorem PinCategory_round_trip_witness :
    ExampleK2.Names.Nodup ∧
    PinCategoryToLuaValueType ExampleK2
        (LuaValueTypeToPinCategory ExampleK2 ELuaValueType.Number) = ELuaValueType.Number ∧
    PinCategoryToLuaValueType ExampleK2
        (LuaValueTypeToPinCategory ExampleK2 ELuaValueType.Function) = ELuaValueType.Table ∧
    PinCategoryToLuaValueType ExampleK2 [101, 120, 101, 99] = ELuaValueType.Table :=
  have h := PinCategory_round_trip ExampleK2 (by decide)
  ⟨by decide, h.1 ELuaValueType.Number, h.1 ELuaValueType.Function,
    h.2 [101, 120, 101, 99] (by decide)⟩

/-! ## Range -/

theorem WrapInt32_id (x : Int) (hLo : MIN_int32 ≤ x) (hHi : x ≤ MAX_int32) :
    WrapInt32 x = x := by
  unfold MIN_int32 at hLo
  unfold MAX_int32 at hHi
  unfold WrapInt32
  omega

/-- The range loop started at `i` with `n` indices left up to `Last`, on an array that has
room for `n` more elements, ends after `n` iterations, having added the fields at
`i, i + 1, ..., Last`. -/
theorem RangeLoop_eq (GetFieldByIndex : FieldByIndex) (InTable : FLuaValue) (Last : Int)
    (hLast : Last < MAX_int32) :
    ∀ (n Fuel : Nat) (i : Int) (Acc : List FLuaValue),
      i + (n : Int) = Last + 1 → MIN_int32 ≤ i → n ≤ Fuel →
      (Acc.length : Int) + (n : Int) ≤ MAX_int32 →
      RangeLoop GetFieldByIndex InTable Last Fuel i Acc =
        some (Acc ++ (List.range n).map
          (fun (j : Nat) => GetFieldByIndex InTable (i + (j : Int)))) := by
  intro n
  induction n with
  | zero =>
    intro Fuel i Acc hi _ _ _
    have hgt : ¬ (i ≤ Last) := by
      simp only [Nat.cast_zero, add_zero] at hi
      omega
    cases Fuel <;> simp [RangeLoop, hgt]
  | succ n ih =>
    intro Fuel i Acc hi hLo hFuel hRoom
    obtain ⟨f, rfl⟩ : ∃ f, Fuel = f + 1 := ⟨Fuel - 1, by omega⟩
    have hle : i ≤ Last := by
      push_cast at hi
      omega
    have hlt : (Acc.length : Int) < MAX_int32 := by
      push_cast at hRoom
      omega
    have hWrap : WrapInt32 (i + 1) = i + 1 :=
      WrapInt32_id (i + 1) (by omega) (by omega)
    have hList : (List.range (n + 1)).map
          (fun (j : Nat) => GetFieldByIndex InTable (i + (j : Int))) =
        GetFieldByIndex InTable i ::
          (List.range n).map (fun (j : Nat) => GetFieldByIndex InTable (i + 1 + (j : Int))) := by
      rw [List.range_succ_eq_map, List.map_cons, List.map_map]
      refine congrArg₂ _ (by simp) ?_
      apply List.map_congr_left
      intro j _
      have hIdx : i + ((Nat.succ j : Nat) : Int) = i + 1 + (j : Int) := by
        push_cast; ring
      simp only [Function.comp, hIdx]
    simp only [RangeLoop, hle, if_true, hlt, hWrap]
    rw [ih f (i + 1) _ (by push_cast at hi; omega) (by omega) (by omega)
      (by simp only [List.length_append, List.length_singleton]; push_cast at hRoom ⊢; omega),
      hList]
    simp

/-- The range loop with more indices left up to `Last` than the array has room for has no
result, whatever the number of iterations allowed. -/
theorem RangeLoop_full (GetFieldByIndex : FieldByIndex) (InTable : FLuaValue) (Last : Int)
    (hLast : Last < MAX_int32) :
    ∀ (Fuel : Nat) (i : Int) (Acc : List FLuaValue),
      MIN_int32 ≤ i → (Acc.length : Int) ≤ MAX_int32 →
      MAX_int32 < (Acc.length : Int) + (Last - i + 1) →
      RangeLoop GetFieldByIndex InTable Last Fuel i Acc = none := by
  intro Fuel
  induction Fuel with
  | zero =>
    intro i Acc _ hLen hMore
    have hle : i ≤ Last := by omega
    simp [RangeLoop, hle]
  | succ Fuel ih =>
    intro i Acc hLo hLen hMore
    have hle : i ≤ Last := by omega
    have hWrap : WrapInt32 (i + 1) = i + 1 :=
      WrapInt32_id (i + 1) (by omega) (by omega)
    by_cases hlt : (Acc.length : Int) < MAX_int32
    · simp only [RangeLoop, hle, if_true, hlt, hWrap]
      exact ih (i + 1) _ (by omega)
        (by simp only [List.length_append, List.length_singleton]; push_cast; omega)
        (by simp only [List.length_append, List.length_singleton]; push_cast; omega)
    · simp [RangeLoop, hle, hlt]

/-- C24, counterexample: `First` the smallest `int32` and `Last = 2^31 - 2` are 32-bit
integers with `Last < 2^31 - 1`, and `max(0, Last - First + 1)` is `4294967295`, more
elements than an array with an `int32` count holds: `LuaTableRange` on the example table
returns no array, whatever the number of iterations allowed. -/
theorem LuaTableRange_count_overflow :
    (FLuaValue.TableRef 0 1).Type_ = ELuaValueType.Table ∧
    MIN_int32 ≤ MIN_int32 ∧ MIN_int32 ≤ MAX_int32 ∧
    MIN_int32 ≤ MAX_int32 - 1 ∧ MAX_int32 - 1 < MAX_int32 ∧
    max 0 ((MAX_int32 - 1) - MIN_int32 + 1) = 4294967295 ∧
    MAX_int32 < 4294967295 ∧
    ∀ Fuel : Nat, LuaTableRange ExampleFields Fuel (FLuaValue.TableRef 0 1) MIN_int32
      (MAX_int32 - 1) = none := by
  refine ⟨rfl, by decide, by decide, by decide, by decide, by decide, by decide, ?_⟩
  intro Fuel
  have hType : (FLuaValue.TableRef 0 1).Type_ = ELuaValueType.Table := rfl
  simp only [LuaTableRange, hType, ne_eq, not_true_eq_false, if_false]
  exact RangeLoop_full ExampleFields (FLuaValue.TableRef 0 1) (MAX_int32 - 1) (by decide)
    Fuel MIN_int32 [] (by decide) (by decide) (by decide)

/-- C24, as amended: for a Table and 32-bit integers `First` and `Last` with `Last` below
the largest `int32` and `Last - First < 2^31 - 1`, so that the array holds the range,
`LuaTableRange` ends as soon as the loop may run `max(0, Last - First + 1)` times and
returns that many elements, the `j`-th being the field at `First + j`, Nil or not; it
returns the empty array when `First > Last`. -/
theorem LuaTableRange_fields (GetFieldByIndex : FieldByIndex) (InTable : FLuaValue)
    (First Last : Int) (Fuel : Nat)
    (hType : InTable.Type_ = ELuaValueType.Table)
    (hFirst : MIN_int32 ≤ First ∧ First ≤ MAX_int32)
    (hLast : MIN_int32 ≤ Last ∧ Last < MAX_int32)
    (hCount : Last - First < MAX_int32)
    (hFuel : (Last - First + 1).toNat ≤ Fuel) :
    LuaTableRange GetFieldByIndex Fuel InTable First Last =
      some ((List.range (Last - First + 1).toNat).map
        (fun (j : Nat) => GetFieldByIndex InTable (First + (j : Int)))) ∧
    (∀ Result, LuaTableRange GetFieldByIndex Fuel InTable First Last = some Result →
      (Result.length : Int) = max 0 (Last - First + 1) ∧
      (Result.length : Int) ≤ MAX_int32) ∧
    (First > Last → LuaTableRange GetFieldByIndex Fuel InTable First Last = some []) := by
  have hRun : LuaTableRange GetFieldByIndex Fuel InTable First Last =
      some ((List.range (Last - First + 1).toNat).map
        (fun (j : Nat) => GetFieldByIndex InTable (First + (j : Int)))) := by
    simp only [LuaTableRange, hType, ne_eq, not_true_eq_false, if_false]
    by_cases hle : First ≤ Last
    · have h := RangeLoop_eq GetFieldByIndex InTable Last hLast.2 (Last - First + 1).toNat Fuel
        First [] (by omega) hFirst.1 hFuel
        (by simp only [List.length_nil, Nat.cast_zero]; omega)
      simpa using h
    · have h0 : (Last - First + 1).toNat = 0 := by omega
      rw [h0]
      cases Fuel <;> simp [RangeLoop, hle]
  refine ⟨hRun, ?_, ?_⟩
  · intro Result hResult
    rw [hRun] at hResult
    cases hResult
    simp only [List.length_map, List.length_range]
    have hMax : (0 : Int) ≤ MAX_int32 := by decide
    exact ⟨by omega, by omega⟩
  · intro hgt
    have h0 : (Last - First + 1).toNat = 0 := by omega
    rw [hRun, h0]
    simp

/-- C24 as amended, witness: the fields 2 to 4 of the table `{10, 20, nil, 40}`, the Nil at
index 3 kept in place, and the empty range from 4 to 2. -/
theorem LuaTableRange_fields_witness :
    (LuaTableRange ExampleFields 3 (FLuaValue.TableRef 0 1) 2 4 =
        some ((List.range ((4 : Int) - 2 + 1).toNat).map
          (fun (j : Nat) => ExampleFields (FLuaValue.TableRef 0 1) (2 + (j : Int)))) ∧
      LuaTableRange ExampleFields 3 (FLuaValue.TableRef 0 1) 2 4
        = some [FLuaValue.OfInteger 20, FLuaValue.Nil, FLuaValue.OfInteger 40]) ∧
    LuaTableRange ExampleFields 0 (FLuaValue.TableRef 0 1) 4 2 = some [] :=
  ⟨⟨(LuaTableRange_fields ExampleFields (FLuaValue.TableRef 0 1) 2 4 3 rfl
        (by decide) (by decide) (by decide) (by decide)).1, by decide⟩,
   (LuaTableRange_fields ExampleFields (FLuaValue.TableRef 0 1) 4 2 0 rfl
        (by decide) (by decide) (by decide) (by decide)).2.2 (by decide)⟩

/-! ## Schemas: all and any -/

/-- C25: `LuaTableImplementsAll` is true exactly when `LuaTableImplements` is true for
every schema of the list, `LuaTableImplementsAny` exactly when it is true for some
schema; for the empty list the first is true and the second false, for every value,
Table or not, with a live instance or not. -/
theorem LuaTableImplementsAll_Any_iff (GetField : FieldByKey) (W : World) (Table : FLuaValue)
    (TableAssets : List (List (List Nat × FLuaValue))) :
    (LuaTableImplementsAll GetField W Table TableAssets = true ↔
      ∀ TableAsset ∈ TableAssets, LuaTableImplements GetField W Table TableAsset = true) ∧
    (LuaTableImplementsAny GetField W Table TableAssets = true ↔
      ∃ TableAsset ∈ TableAssets, LuaTableImplements GetField W Table TableAsset = true) ∧
    LuaTableImplementsAll GetField W Table [] = true ∧
    LuaTableImplementsAny GetField W Table [] = false := by
  refine ⟨?_, ?_, rfl, rfl⟩
  · induction TableAssets with
    | nil => simp [LuaTableImplementsAll]
    | cons TableAsset Rest ih =>
      by_cases h : LuaTableImplements GetField W Table TableAsset = true
      · simp [LuaTableImplementsAll, h, ih]
      · simp [LuaTableImplementsAll, h]
  · induction TableAssets with
    | nil => simp [LuaTableImplementsAny]
    | cons TableAsset Rest ih =>
      by_cases h : LuaTableImplements GetField W Table TableAsset = true
      · simp [LuaTableImplementsAny, h]
      · simp [LuaTableImplementsAny, h, ih]

/-- C25, witness: the example table implements `{x : Integer}` and not `{z : Integer}`,
so it implements any but not all of the two; an integer and a table of an instance that
is gone implement all of the empty list and none of it. -/
theorem LuaTableImplementsAll_Any_iff_witness :
    ((LuaTableImplementsAll ExampleKeyFields ExampleWorld (FLuaValue.TableRef 0 1)
          [[([120], FLuaValue.OfInteger 0)], [([122], FLuaValue.OfInteger 0)]] = true ↔
        ∀ TableAsset ∈ [[([120], FLuaValue.OfInteger 0)], [([122], FLuaValue.OfInteger 0)]],
          LuaTableImplements ExampleKeyFields ExampleWorld (FLuaValue.TableRef 0 1) TableAsset
            = true) ∧
      (LuaTableImplementsAny ExampleKeyFields ExampleWorld (FLuaValue.TableRef 0 1)
          [[([120], FLuaValue.OfInteger 0)], [([122], FLuaValue.OfInteger 0)]] = true ↔
        ∃ TableAsset ∈ [[([120], FLuaValue.OfInteger 0)], [([122], FLuaValue.OfInteger 0)]],
          LuaTableImplements ExampleKeyFields ExampleWorld (FLuaValue.TableRef 0 1) TableAsset
            = true) ∧
      LuaTableImplementsAll ExampleKeyFields ExampleWorld (FLuaValue.TableRef 0 1) [] = true ∧
      LuaTableImplementsAny ExampleKeyFields ExampleWorld (FLuaValue.TableRef 0 1) [] = false) ∧
    LuaTableImplementsAll ExampleKeyFields ExampleWorld (FLuaValue.TableRef 0 1)
      [[([120], FLuaValue.OfInteger 0)], [([122], FLuaValue.OfInteger 0)]] = false ∧
    LuaTableImplementsAny ExampleKeyFields ExampleWorld (FLuaValue.TableRef 0 1)
      [[([120], FLuaValue.OfInteger 0)], [([122], FLuaValue.OfInteger 0)]] = true ∧
    (LuaTableImplementsAll ExampleKeyFields ExampleWorld (FLuaValue.OfInteger 5) [] = true ∧
      LuaTableImplementsAny ExampleKeyFields ExampleWorld (FLuaValue.OfInteger 5) [] = false) ∧
    (LuaTableImplementsAll ExampleKeyFields ExampleWorld (FLuaValue.TableRef 7 1) [] = true ∧
      LuaTableImplementsAny ExampleKeyFields ExampleWorld (FLuaValue.TableRef 7 1) [] = false) :=
  ⟨LuaTableImplementsAll_Any_iff ExampleKeyFields ExampleWorld (FLuaValue.TableRef 0 1)
      [[([120], FLuaValue.OfInteger 0)], [([122], FLuaValue.OfInteger 0)]],
   by decide, by decide,
   (LuaTableImplementsAll_Any_iff ExampleKeyFields ExampleWorld (FLuaValue.OfInteger 5) []).2.2,
   (LuaTableImplementsAll_Any_iff ExampleKeyFields ExampleWorld (FLuaValue.TableRef 7 1) []).2.2⟩

end LuaMachine
